import Mathlib

/-!
Verification development for the DokuCORE hierarchical indexing and hybrid
search engine.  The Python sources under src/api are shallowly embedded:
Python strings become lists of characters, floats become rationals (reals
where a transcendental function is involved), dictionaries become explicit
association lists, fallible external calls (database, embedding model)
become Except-valued parameters, and in-place mutation of shared objects
becomes explicit state passing.
-/

namespace DokuCORE

/-- Python strings are modelled as lists of characters (`str` values). -/
abbrev PyStr := List Char

/-- Python's `s.split(c)` for a single-character separator: splits at every
occurrence, keeping empty pieces; the empty string yields one empty piece. -/
def splitOnChar (c : Char) : PyStr → List PyStr
  | [] => [[]]
  | x :: xs =>
    if x = c then [] :: splitOnChar c xs
    else
      match splitOnChar c xs with
      | [] => [[x]]
      | h :: t => (x :: h) :: t

/-- Python's `s.split()` with no separator: split on runs of whitespace and
drop empty tokens. -/
def pySplitWs (s : PyStr) : List PyStr :=
  (splitOnChar ' ' ((s.map (fun c => if c.isWhitespace then ' ' else c)))).filter (· ≠ [])

/-- Python's `s.strip()`: remove leading and trailing whitespace. -/
def pyStrip (s : PyStr) : PyStr :=
  ((s.dropWhile Char.isWhitespace).reverse.dropWhile Char.isWhitespace).reverse

/-- Python's `s.lower()` (ASCII behaviour). -/
def pyLower (s : PyStr) : PyStr := s.map Char.toLower

/-- Python's `"\n".join(xs)` for a list of strings. -/
def joinLines (xs : List PyStr) : PyStr := List.intercalate ['\n'] xs

/-- Python's `"\n".join(s)` applied to a string `s`: iterating a string
yields its characters, so the result interleaves a newline between every
pair of adjacent characters.  `segmentation_strategy.py` does exactly this
(lines 207 and 233) because `_finalize_segment` has already replaced the
content list by a joined string. -/
def joinNlChars (s : PyStr) : PyStr := List.intersperse '\n' s

/-- A segment/node content field: `_finalize_segment` replaces the list of
lines by a single joined string, while the token-limit splitter stores a
one-element list, so the Python dict field holds either a `str` or a
`list`. -/
inductive PyVal where
  | str (s : PyStr)
  | list (xs : List PyStr)
deriving DecidableEq, Repr

/-- Python's `"\n".join(content)` on a segment content field of either
shape. -/
def joinNlVal : PyVal → PyStr
  | .str s => joinNlChars s
  | .list xs => joinLines xs

/-- Match of the markdown header regex `^(#{1,6})\s+(.+)` used by both
parsers (`markdown_parser.py` line 63, `segmentation_strategy.py` line 80).
Returns `(level, group2)` on success, where `level` is the number of
leading hash characters and `group2` the (unstripped) title capture.  The
regex backtracks: more than six leading hashes never match, and when the
remainder after the hashes is all whitespace of length at least two, `\s+`
gives one character back to `(.+)`. -/
def headerMatch (line : PyStr) : Option (ℕ × PyStr) :=
  let h := (line.takeWhile (· = '#')).length
  let rest := line.dropWhile (· = '#')
  if h = 0 ∨ 6 < h then none
  else
    let ws := rest.takeWhile Char.isWhitespace
    let tail := rest.dropWhile Char.isWhitespace
    if ws.isEmpty then none
    else if ¬ tail.isEmpty then some (h, tail)
    else if 2 ≤ ws.length then some (h, ws.drop (ws.length - 1))
    else none

/-- A hierarchy node as produced by `extract_hierarchy_from_markdown`:
title, content, header level and zero-based sequence number. -/
structure HNode where
  title : PyStr
  content : PyVal
  level : ℕ
  seq_num : ℕ
deriving DecidableEq, Repr

/-! ### Fallback parser (`markdown_parser.py` lines 52-109)

State of the line loop: accumulated nodes, current title, current level,
accumulated content lines of the current section, and the sequence
counter. -/

structure FallbackState where
  nodes : List HNode
  current_title : PyStr
  current_level : ℕ
  current_content : List PyStr
  seq_counter : ℕ
deriving Repr

/-- One iteration of the fallback parser's line loop. -/
def fallbackStep (st : FallbackState) (line : PyStr) : FallbackState :=
  match headerMatch line with
  | some (level, g2) =>
    let st' :=
      if st.current_title ≠ [] then
        { st with
          nodes := st.nodes ++
            [⟨st.current_title, .str (pyStrip (joinLines st.current_content)),
              st.current_level, st.seq_counter⟩]
          seq_counter := st.seq_counter + 1
          current_content := [] }
      else st
    { st' with current_level := level, current_title := pyStrip g2 }
  | none =>
    if st.current_title ≠ [] then
      { st with current_content := st.current_content ++ [line] }
    else st

/-- The fallback parser's node list before the default-node rule: run the
line loop and flush the last section. -/
def fallbackNodes (lines : List PyStr) : List HNode :=
  let st := lines.foldl fallbackStep ⟨[], [], 0, [], 0⟩
  if st.current_title ≠ [] then
    st.nodes ++
      [⟨st.current_title, .str (pyStrip (joinLines st.current_content)),
        st.current_level, st.seq_counter⟩]
  else st.nodes

/-- `extract_hierarchy_from_markdown` with `use_advanced_segmentation=False`:
split into lines, run the loop, and fall back to a single "Document
Content" node when no node was produced. -/
def extractHierarchyFallback (content : PyStr) : List HNode :=
  let nodes := fallbackNodes (splitOnChar '\n' content)
  if nodes.isEmpty then
    [⟨"Document Content".data, .str content, 1, 0⟩]
  else nodes

/-! ### Advanced segmentation (`segmentation_strategy.py`) -/

/-- Python's `s.split(sep)` for a multi-character separator (used with
`"\n\n"`): non-overlapping left-to-right splitting. -/
def splitOnSeq (sep : PyStr) (s : PyStr) : List PyStr :=
  match s with
  | [] => [[]]
  | x :: xs =>
    if h : sep.isPrefixOf (x :: xs) ∧ sep ≠ [] then
      [] :: splitOnSeq sep (xs.drop (sep.length - 1))
    else
      match splitOnSeq sep xs with
      | [] => [[x]]
      | h :: t => (x :: h) :: t
termination_by s.length
decreasing_by
  · simp only [List.length_cons, List.length_drop]
    omega
  · simp only [List.length_cons]
    omega

/-- `SegmentationConfig` (`segmentation_strategy.py` lines 23-30).  The
`overlap_ratio` field is renamed `overlapFrac` here. -/
structure SegmentationConfig where
  min_segment_length : ℕ := 50
  max_segment_length : ℕ := 2000
  target_token_count : ℕ := 512
  overlapFrac : ℚ := 0.1
  semantic_threshold : ℚ := 0.7
deriving Repr

/-- A segment dict: title, content (list of lines before `_finalize_segment`,
a joined string after), level, and the `has_overlap` metadata flag.  Fields
of the dict that no control flow or claim reads (start_line, end_position,
char_count, estimated_tokens, part) are omitted. -/
structure Segment where
  title : PyStr
  content : PyVal
  level : ℕ
  has_overlap : Bool := false
deriving DecidableEq, Repr

/-- `_finalize_segment` (lines 286-294): join the accumulated lines and
strip. -/
def finalizeSegment (title : PyStr) (contentLines : List PyStr) (level : ℕ) : Segment :=
  ⟨title, .str (pyStrip (joinLines contentLines)), level, false⟩

/-- State of `_header_based_segmentation`'s line loop. -/
structure HeaderSegState where
  segments : List Segment
  title : PyStr
  content : List PyStr
  level : ℕ
deriving Repr

/-- One iteration of `_header_based_segmentation`'s loop (lines 79-99): a
header line flushes the current segment when it has a title or content and
starts a new one; any other line accumulates. -/
def headerSegStep (st : HeaderSegState) (line : PyStr) : HeaderSegState :=
  match headerMatch line with
  | some (level, g2) =>
    let segs :=
      if st.title ≠ [] ∨ st.content ≠ [] then
        st.segments ++ [finalizeSegment st.title st.content st.level]
      else st.segments
    ⟨segs, pyStrip g2, [], level⟩
  | none => { st with content := st.content ++ [line] }

/-- `_header_based_segmentation` (lines 65-105): run the loop starting from
the empty level-0 segment and flush the final segment. -/
def headerBasedSegmentation (content : PyStr) : List Segment :=
  let st := (splitOnChar '\n' content).foldl headerSegStep ⟨[], [], [], 0⟩
  if st.title ≠ [] ∨ st.content ≠ [] then
    st.segments ++ [finalizeSegment st.title st.content st.level]
  else st.segments

/-- One iteration of `_semantic_boundary_segmentation`'s paragraph loop
(lines 125-144).  State: segments so far, current content (paragraph list),
and the running character count, which the source never resets per
segment.  Blank paragraphs are skipped. -/
def semanticSegStep (cfg : SegmentationConfig)
    (st : List Segment × List PyStr × ℕ) (p : PyStr) : List Segment × List PyStr × ℕ :=
  let (segments, current, charCount) := st
  if pyStrip p = [] then st
  else if cfg.max_segment_length < charCount + p.length ∧ current ≠ [] then
    (segments ++ [finalizeSegment ("Semantic Segment".data) current 1], [p], charCount + p.length)
  else (segments, current ++ [p], charCount + p.length)

/-- `_semantic_boundary_segmentation` (lines 107-150).  The source titles
the first segment "Semantic Segment" and flushed ones
"Semantic Segment N"; the titles are irrelevant to every claim and are
modelled uniformly as "Semantic Segment". -/
def semanticBoundarySegmentation (cfg : SegmentationConfig) (content : PyStr) : List Segment :=
  let (segments, current, _) :=
    (splitOnSeq ['\n', '\n'] content).foldl (semanticSegStep cfg) ([], [], 0)
  if current ≠ [] then segments ++ [finalizeSegment ("Semantic Segment".data) current 1]
  else segments

/-- Decimal rendering of a natural number, for the "... - Part N" titles. -/
def natDigits (n : ℕ) : PyStr := (Nat.repr n).data

/-- The window loop of `_apply_token_limits_with_overlap` (lines 245-273).
The source's `while start < len(words)` loop does not terminate when
`overlap_words > 0` and the final window has been reached (`start` is then
reset to `len(words) - overlap_words` forever); the loop is therefore
modelled with explicit fuel, and every claim below only concerns inputs
that never enter this branch. -/
def chunkLoop (seg : Segment) (words : List PyStr) (wps ow : ℕ) :
    ℕ → ℕ → ℕ → List Segment
  | 0, _, _ => []
  | fuel + 1, start, partNum =>
    if start < words.length then
      let stop := min (start + wps) words.length
      let segmentWords :=
        if 0 < start then
          (words.drop (start - ow)).take (stop - (start - ow))
        else (words.drop start).take (stop - start)
      let newSeg : Segment :=
        ⟨seg.title ++ " - Part ".data ++ natDigits partNum,
          .list [List.intercalate [' '] segmentWords], seg.level, 0 < start⟩
      newSeg :: chunkLoop seg words wps ow fuel (if 0 < ow then stop - ow else stop) (partNum + 1)
    else []

/-- `_apply_token_limits_with_overlap` (lines 226-275): keep small segments,
split large ones into word windows with overlap.  `words_per_segment` is
`target_token_count // 4` and `overlap_words` is
`int(words_per_segment * overlap_ratio)`. -/
def applyTokenLimitsWithOverlap (cfg : SegmentationConfig) (segments : List Segment) :
    List Segment :=
  segments.flatMap fun seg =>
    let content := joinNlVal seg.content
    if content.length ≤ cfg.max_segment_length then [seg]
    else
      let words := pySplitWs content
      let wps := cfg.target_token_count / 4
      let ow := (wps * cfg.overlapFrac).floor.toNat
      chunkLoop seg words wps ow (words.length + 1) 0 1

/-- `_hybrid_segmentation` (lines 195-224): header-based segmentation, then
semantic sub-splitting of oversized segments (note `"\n".join` is applied
to an already-joined string, interleaving newlines between characters),
then the token-limit pass. -/
def hybridSegmentation (cfg : SegmentationConfig) (content : PyStr) : List Segment :=
  let headerSegments := headerBasedSegmentation content
  let finalSegments := headerSegments.flatMap fun seg =>
    let segContent := joinNlVal seg.content
    if cfg.max_segment_length < segContent.length then
      ((semanticBoundarySegmentation cfg segContent).enum.map fun (i, sub) =>
        { sub with title := seg.title ++ " - Part ".data ++ natDigits (i + 1),
                   level := seg.level })
    else [seg]
  applyTokenLimitsWithOverlap cfg finalSegments

/-- `extract_hierarchy_from_markdown` (`markdown_parser.py` lines 19-50)
with `use_advanced_segmentation=True`, its default, used by the indexer:
hybrid segmentation with the default configuration, then conversion of
segments to nodes with `seq_num` assigned by `enumerate`. -/
def extractHierarchyAdvanced (content : PyStr) : List HNode :=
  ((hybridSegmentation {} content).enum.map fun (i, seg) =>
    ⟨seg.title, seg.content, seg.level, i⟩)

/-- `extract_hierarchy_from_markdown` with its `use_advanced_segmentation`
switch (default `true`). -/
def extract_hierarchy_from_markdown (content : PyStr)
    (use_advanced_segmentation : Bool := true) : List HNode :=
  if use_advanced_segmentation then extractHierarchyAdvanced content
  else extractHierarchyFallback content

/-! ### Relationship thresholds (`relationship_thresholds.py`) -/

/-- `RelationshipType` (lines 15-22). -/
inductive RelationshipType where
  | parent_child
  | sibling
  | semantic
  | keyword_based
  | cross_reference
  | implicit
deriving DecidableEq, Repr

/-- `RelationshipThreshold` (lines 24-38). -/
structure RelationshipThreshold where
  min_strength : ℚ
  strong_threshold : ℚ
  very_strong_threshold : ℚ
  decay_factor : Option ℚ := none
deriving DecidableEq, Repr

/-- `RelationshipManager.THRESHOLDS` (lines 44-76). -/
def THRESHOLDS : RelationshipType → RelationshipThreshold
  | .parent_child => ⟨1.0, 1.0, 1.0, none⟩
  | .sibling => ⟨0.3, 0.6, 0.8, some 0.1⟩
  | .semantic => ⟨0.7, 0.8, 0.9, none⟩
  | .keyword_based => ⟨0.3, 0.5, 0.7, none⟩
  | .cross_reference => ⟨0.5, 0.7, 0.9, none⟩
  | .implicit => ⟨0.4, 0.6, 0.8, none⟩

/-- `RelationshipManager.calculate_sibling_strength` (lines 78-103):
zero across levels, otherwise the very-strong base decayed by sequence
distance and floored at the sibling minimum. -/
def calculate_sibling_strength (level_distance sequence_distance : ℕ) : ℚ :=
  let threshold := THRESHOLDS .sibling
  if level_distance ≠ 0 then 0
  else max threshold.min_strength
    (threshold.very_strong_threshold - threshold.decay_factor.getD 0 * sequence_distance)

/-- `RelationshipManager.calculate_semantic_strength` (lines 105-134) over
the reals: zero below the semantic minimum, otherwise a logistic rescaling
of the similarity, clamped at 1. -/
noncomputable def calculate_semantic_strength (cosine_similarity : ℝ) : ℝ :=
  let m : ℝ := ((THRESHOLDS .semantic).min_strength : ℚ)
  if cosine_similarity < m then 0
  else
    let x := (cosine_similarity - m) / (1 - m)
    let scaled := 1 / (1 + Real.exp (-6 * (x - 0.5)))
    min 1 (m + scaled * (1 - m))

/-- `RelationshipManager.should_create_relationship` (lines 164-179). -/
def should_create_relationship (relationship_type : RelationshipType) (strength : ℚ) : Bool :=
  (THRESHOLDS relationship_type).min_strength ≤ strength

/-! ### Search optimizer (`search_optimizer.py`) -/

/-- `SearchStrategy` (lines 16-22). -/
inductive SearchStrategy where
  | precision
  | recall
  | balanced
  | fast
  | comprehensive
deriving DecidableEq, Repr

/-- `SearchConfig` (lines 24-58), with the dataclass defaults. -/
structure SearchConfig where
  top_k : ℕ := 10
  similarity_threshold : ℚ := 0.7
  keyword_weight : ℚ := 0.6
  semantic_weight : ℚ := 0.4
  enable_query_expansion : Bool := true
  expansion_terms : ℕ := 3
  synonym_threshold : ℚ := 0.8
  use_cache : Bool := true
  cache_ttl : ℕ := 3600
  batch_size : ℕ := 100
  max_depth : ℕ := 3
  title_boost : ℚ := 2.0
  keyword_boost : ℚ := 1.5
  relationship_decay : ℚ := 0.8
  strategy : SearchStrategy := .balanced
deriving DecidableEq, Repr

/-- The class-level `STRATEGY_CONFIGS` dict (lines 64-110).  Each entry is a
single shared mutable `SearchConfig` object; the record of all five slots
is therefore the mutable process state of the optimizer. -/
structure StrategyConfigs where
  precisionSlot : SearchConfig
  recallSlot : SearchConfig
  balancedSlot : SearchConfig
  fastSlot : SearchConfig
  comprehensiveSlot : SearchConfig
deriving DecidableEq, Repr

/-- The initial contents of `STRATEGY_CONFIGS` (lines 64-110). -/
def initialStrategyConfigs : StrategyConfigs where
  precisionSlot :=
    { top_k := 5, similarity_threshold := 0.85, keyword_weight := 0.7,
      semantic_weight := 0.3, enable_query_expansion := false, max_depth := 2 }
  recallSlot :=
    { top_k := 20, similarity_threshold := 0.6, keyword_weight := 0.4,
      semantic_weight := 0.6, enable_query_expansion := true,
      expansion_terms := 5, max_depth := 4 }
  balancedSlot :=
    { top_k := 10, similarity_threshold := 0.7, keyword_weight := 0.5,
      semantic_weight := 0.5, enable_query_expansion := true,
      expansion_terms := 3, max_depth := 3 }
  fastSlot :=
    { top_k := 5, similarity_threshold := 0.75, keyword_weight := 0.8,
      semantic_weight := 0.2, enable_query_expansion := false,
      max_depth := 1, use_cache := true }
  comprehensiveSlot :=
    { top_k := 25, similarity_threshold := 0.5, keyword_weight := 0.4,
      semantic_weight := 0.6, enable_query_expansion := true,
      expansion_terms := 7, max_depth := 5, synonym_threshold := 0.7 }

/-- `SearchOptimizer.get_config_for_strategy` (lines 112-115): reading a
slot of the shared dict. -/
def get_config_for_strategy (s : StrategyConfigs) : SearchStrategy → SearchConfig
  | .precision => s.precisionSlot
  | .recall => s.recallSlot
  | .balanced => s.balancedSlot
  | .fast => s.fastSlot
  | .comprehensive => s.comprehensiveSlot

/-- Writing a slot of the shared dict: models in-place mutation of the
shared `SearchConfig` object returned by `get_config_for_strategy`. -/
def setConfigSlot (s : StrategyConfigs) (slot : SearchStrategy) (c : SearchConfig) :
    StrategyConfigs :=
  match slot with
  | .precision => { s with precisionSlot := c }
  | .recall => { s with recallSlot := c }
  | .balanced => { s with balancedSlot := c }
  | .fast => { s with fastSlot := c }
  | .comprehensive => { s with comprehensiveSlot := c }

/-- The interrogative test of `optimize_for_query_type` (line 147). -/
def isQuestionQuery (query : PyStr) : Bool :=
  ["what", "how", "why", "when", "where", "who"].any
    (fun q => q.data.isPrefixOf (pyLower query))

/-- The pure part of `SearchOptimizer.optimize_for_query_type` (lines
117-152): which preset slot is selected and the value the shared config
object holds after the in-place attribute assignments. -/
def optimizeSelect (s : StrategyConfigs) (query : PyStr) : SearchStrategy × SearchConfig :=
  let query_length := (pySplitWs query).length
  let (slot, config) :=
    if query_length ≤ 2 then
      (SearchStrategy.precision,
        { get_config_for_strategy s .precision with keyword_weight := 0.8, semantic_weight := 0.2 })
    else if query_length ≤ 5 then
      (SearchStrategy.balanced, get_config_for_strategy s .balanced)
    else
      (SearchStrategy.recall,
        { get_config_for_strategy s .recall with keyword_weight := 0.3, semantic_weight := 0.7 })
  let config :=
    if isQuestionQuery query then
      { config with enable_query_expansion := true,
                    semantic_weight := config.semantic_weight + 0.1,
                    keyword_weight := config.keyword_weight - 0.1 }
    else config
  (slot, config)

/-- `SearchOptimizer.optimize_for_query_type` (lines 117-152): returns the
selected (shared, mutated-in-place) config and the resulting state of the
shared preset dict. -/
def optimize_for_query_type (s : StrategyConfigs) (query : PyStr) :
    SearchConfig × StrategyConfigs :=
  let (slot, config) := optimizeSelect s query
  (config, setConfigSlot s slot config)

/-- The metadata dict passed to `calculate_relevance_score`: the keys the
scorer reads (`is_title`, `has_keywords`, `exact_match`, `depth`) plus the
keys call sites store but the scorer ignores (`importance`, `level`). -/
structure ScoreMetadata where
  is_title : Bool := false
  has_keywords : Bool := false
  exact_match : Bool := false
  depth : Option ℕ := none
  importance : Option ℚ := none
  level : Option ℕ := none
deriving DecidableEq, Repr

/-- `SearchOptimizer.calculate_relevance_score` (lines 154-194): match-type
weighting, metadata boosts, and the final cap at 1. -/
def calculate_relevance_score (base_score : ℚ) (match_type : PyStr)
    (config : SearchConfig) (metadata : Option ScoreMetadata) : ℚ :=
  let score := base_score
  let score :=
    if match_type = "keyword".data then score * (config.keyword_weight * config.keyword_boost)
    else if match_type = "semantic".data then score * config.semantic_weight
    else if "related".data.isPrefixOf match_type then
      let depth := (metadata.bind (·.depth)).getD 1
      score * (config.semantic_weight * config.relationship_decay ^ depth)
    else score
  let score :=
    match metadata with
    | none => score
    | some md =>
      let score := if md.is_title then score * config.title_boost else score
      let score := if md.has_keywords then score * config.keyword_boost else score
      if md.exact_match then score * 1.5 else score
  min score 1

/-- The synonym table of `get_query_expansion_terms` (lines 229-236). -/
def synonymTable : List (PyStr × List PyStr) :=
  [("find".data, ["search".data, "locate".data, "get".data]),
   ("create".data, ["make".data, "build".data, "generate".data]),
   ("update".data, ["modify".data, "change".data, "edit".data]),
   ("delete".data, ["remove".data, "destroy".data, "erase".data]),
   ("doc".data, ["document".data, "documentation".data, "docs".data]),
   ("config".data, ["configuration".data, "settings".data, "setup".data])]

/-- `SearchOptimizer.get_query_expansion_terms` (lines 196-242).  The final
`list(set(...))` has CPython hash order; it is modelled as first-occurrence
deduplication, which no claim depends on. -/
def get_query_expansion_terms (query : PyStr) (config : SearchConfig) : List PyStr :=
  if ¬ config.enable_query_expansion then []
  else
    let words := pySplitWs (pyLower query)
    let plurals := words.map fun w =>
      if w ≠ [] ∧ w.getLast? = some 's' then w.dropLast else w ++ ['s']
    let syns := words.flatMap fun w =>
      match synonymTable.lookup w with
      | some vs => vs.take config.expansion_terms
      | none => []
    ((plurals ++ syns).eraseDups).take config.expansion_terms

/-! ### Hierarchical indexer (`hierarchical_indexer.py`) -/

/-- Lexicographic order on the `(level, seq_num)` tuples that key
`node_ids`; Python compares tuples lexicographically. -/
def keyLe (a b : ℕ × ℕ) : Prop := a.1 < b.1 ∨ (a.1 = b.1 ∧ a.2 ≤ b.2)

instance : DecidableRel keyLe := fun a b => by unfold keyLe; infer_instance

/-- Python's `sorted(keys, reverse=True)` on `(level, seq_num)` tuples:
stable descending lexicographic sort. -/
def sortedKeysDesc (ks : List (ℕ × ℕ)) : List (ℕ × ℕ) :=
  ks.insertionSort (fun a b => keyLe b a)

/-- The parent-resolution loop of `generate_hierarchical_index` (lines
98-106): among all hierarchy nodes with lower level and lower sequence
number, iterate the `(level, seq_num)` keys in descending tuple order and
pick the first one present in `node_ids` (whose key set is `processed`). -/
def resolveParentKey (hierarchy_nodes : List HNode) (node : HNode)
    (processed : List (ℕ × ℕ)) : Option (ℕ × ℕ) :=
  let candidates :=
    (hierarchy_nodes.filter fun n =>
      n.level < node.level ∧ n.seq_num < node.seq_num).map fun n => (n.level, n.seq_num)
  (sortedKeysDesc candidates).find? (fun k => decide (k ∈ processed))

/-- The parent key chosen for every node of a document's parsed hierarchy,
with `node_ids` holding exactly the keys of the previously processed
nodes, as in the insertion loop of `generate_hierarchical_index`. -/
def documentParentKeys (content : PyStr) : List (HNode × Option (ℕ × ℕ)) :=
  let nodes := extract_hierarchy_from_markdown content
  nodes.enum.map fun (i, node) =>
    (node, resolveParentKey nodes node ((nodes.take i).map fun m => (m.level, m.seq_num)))

/-- A row of the `document_hierarchy` table. -/
structure NodeRow where
  id : ℕ
  document_id : ℕ
  parent_id : Option ℕ
  title : PyStr
  content : PyVal
  embedding : List ℚ
  doc_level : ℕ
  seq_num : ℕ
deriving DecidableEq, Repr

/-- A row of the `document_keywords` table. -/
structure KeywordDbRow where
  node_id : ℕ
  keyword : PyStr
  embedding : List ℚ
  importance : ℚ
deriving DecidableEq, Repr

/-- A row of the `document_relationships` table.  Semantic strengths are
real-valued (they involve the logistic rescaling). -/
structure RelDbRow where
  source_id : ℕ
  target_id : ℕ
  relationship_type : PyStr
  strength : ℝ

/-- The committed database state: the three index tables plus the id
sequence. -/
structure PgState where
  hierarchy : List NodeRow
  keywords : List KeywordDbRow
  relationships : List RelDbRow
  next_id : ℕ

/-- The three DELETE statements of `generate_hierarchical_index` (lines
71-73): remove the document's keywords, relationships and hierarchy
rows. -/
def deleteDocRows (db : PgState) (doc_id : ℕ) : PgState :=
  let docNodeIds := (db.hierarchy.filter (fun r => r.document_id = doc_id)).map (·.id)
  { db with
    keywords := db.keywords.filter (fun k => k.node_id ∉ docNodeIds)
    relationships := db.relationships.filter
      (fun r => r.source_id ∉ docNodeIds ∧ r.target_id ∉ docNodeIds)
    hierarchy := db.hierarchy.filter (fun r => r.document_id ≠ doc_id) }

/-- Text of a node content field as interpolated by the f-string
`f"{node['title']} {node['content']}"`: a `str` interpolates itself, a
`list` its repr. -/
def pyValText : PyVal → PyStr
  | .str s => s
  | .list xs =>
    '[' :: (List.intercalate [',', ' '] (xs.map fun s => '\'' :: s ++ ['\''])) ++ [']']

/-- The node/keyword insertion loop of `generate_hierarchical_index` (lines
82-136): embed each node (document prefix applied when configured),
resolve its parent against `node_ids`, insert the row, then embed and
insert its keywords (query prefix applied when configured).  The embedding
provider is the fallible external dependency; the keyword extractor
(`keyword_extractor.py`, which delegates to NLTK and the advanced
extractor) is passed as a function. -/
def insertNodesLoop (embed : PyStr → Except Unit (List ℚ))
    (extractKw : PyStr → PyVal → List (PyStr × ℚ))
    (docPrefixText queryPrefixText : Option PyStr)
    (doc_id : ℕ) (hierarchy_nodes : List HNode) (db : PgState) :
    Except Unit (PgState × List ((ℕ × ℕ) × ℕ)) :=
  hierarchy_nodes.foldlM (fun (acc : PgState × List ((ℕ × ℕ) × ℕ)) node => do
    let (db, node_ids) := acc
    let text := (docPrefixText.getD []) ++ node.title ++ [' '] ++ pyValText node.content
    let embedding ← embed text
    let parent_id :=
      (resolveParentKey hierarchy_nodes node (node_ids.map (·.1))).bind
        (fun k => (node_ids.find? (fun kv => kv.1 = k)).map (·.2))
    let node_id := db.next_id
    let db := { db with
      hierarchy := db.hierarchy ++
        [⟨node_id, doc_id, parent_id, node.title, node.content, embedding,
          node.level, node.seq_num⟩]
      next_id := db.next_id + 1 }
    let node_ids := node_ids ++ [((node.level, node.seq_num), node_id)]
    let keywords := extractKw node.title node.content
    let db ← keywords.foldlM (fun (db : PgState) kw => do
      let kembedding ← embed ((queryPrefixText.getD []) ++ kw.1)
      pure { db with keywords := db.keywords ++ [⟨node_id, kw.1, kembedding, kw.2⟩] }) db
    pure (db, node_ids)) (db, [])

/-- `should_create_relationship` applied to a real-valued (semantic)
strength. -/
abbrev shouldCreateRelationshipReal (t : RelationshipType) (strength : ℝ) : Prop :=
  (((THRESHOLDS t).min_strength : ℚ) : ℝ) ≤ strength

/-- `HierarchicalIndexer._create_node_relationships` (lines 150-216): for
every ordered pair of distinct `node_ids` entries at the same level insert
a sibling edge when the gate accepts, and for every node pair a semantic
edge from the database's cosine similarity (`db_sim`, the pgvector `<=>`
computation, an external store capability) when the gate accepts. -/
noncomputable def createNodeRelationships (doc_id : ℕ) (node_ids : List ((ℕ × ℕ) × ℕ))
    (db : PgState) (db_sim : List ℚ → List ℚ → ℝ) : List RelDbRow :=
  node_ids.enum.flatMap fun (i, kv1) =>
    let sib := node_ids.enum.filterMap fun (j, kv2) =>
      if i ≠ j ∧ kv1.1.1 = kv2.1.1 then
        let strength := calculate_sibling_strength 0 (Nat.dist kv1.1.2 kv2.1.2)
        if should_create_relationship .sibling strength then
          some ⟨kv1.2, kv2.2, "sibling".data, (strength : ℝ)⟩
        else none
      else none
    let others := db.hierarchy.filter fun r => r.document_id = doc_id ∧ r.id ≠ kv1.2
    let sem := others.filterMap fun r2 =>
      match db.hierarchy.find? (fun r => r.id = kv1.2) with
      | some r1 =>
        let strength := calculate_semantic_strength (db_sim r1.embedding r2.embedding)
        if shouldCreateRelationshipReal .semantic strength then
          some ⟨kv1.2, r2.id, "semantic".data, strength⟩
        else none
      | none => none
    sib ++ sem

/-- `HierarchicalIndexer.generate_hierarchical_index` (lines 56-148) as a
transition on the committed database state.  The three DELETEs are
committed immediately (line 74); the node, keyword and relationship
inserts are committed together at the end (line 141).  Any exception after
the first commit (an embedding-provider failure in this model) is caught,
`False` is returned, and the uncommitted inserts are discarded — but the
committed deletion of the old rows remains. -/
noncomputable def generate_hierarchical_index (db : PgState) (doc_id : ℕ) (content : PyStr)
    (embed : PyStr → Except Unit (List ℚ))
    (extractKw : PyStr → PyVal → List (PyStr × ℚ))
    (db_sim : List ℚ → List ℚ → ℝ)
    (docPrefixText queryPrefixText : Option PyStr := none) : Bool × PgState :=
  let afterDelete := deleteDocRows db doc_id
  let attempt : Except Unit PgState := do
    let hierarchy_nodes := extract_hierarchy_from_markdown content
    let (db1, node_ids) ←
      insertNodesLoop embed extractKw docPrefixText queryPrefixText doc_id
        hierarchy_nodes afterDelete
    let rels := createNodeRelationships doc_id node_ids db1 db_sim
    pure { db1 with relationships := db1.relationships ++ rels }
  match attempt with
  | .ok final => (true, final)
  | .error _ => (false, afterDelete)

/-! ### Hybrid search (`hierarchical_search.py`) -/

/-- A row of the keyword search query (lines 88-108). -/
structure KeywordRow where
  node_id : ℕ
  keyword : PyStr
  importance : ℚ
  title : PyStr
  content : PyStr
  document_id : ℕ
  similarity : ℚ
deriving DecidableEq, Repr

/-- A row of the semantic search query (lines 117-125). -/
structure SemanticRow where
  id : ℕ
  title : PyStr
  content : PyStr
  document_id : ℕ
  doc_level : ℕ
  parent_id : Option ℕ
  similarity : ℚ
deriving DecidableEq, Repr

/-- A row of the relationship expansion query (lines 247-255). -/
structure RelQueryRow where
  source_id : ℕ
  target_id : ℕ
  relationship_type : PyStr
  strength : ℚ
  title : PyStr
  content : PyStr
  document_id : ℕ
deriving DecidableEq, Repr

/-- A search result dict; optional fields model keys that only some entry
kinds carry (keyword entries have no `level`, related entries no
`keyword`, and `doc_title`/`doc_path` appear only after enrichment). -/
structure SearchResult where
  id : ℕ
  title : PyStr
  content : PyStr
  document_id : ℕ
  relevance : ℚ
  match_type : PyStr
  keyword : Option PyStr := none
  parent_id : Option ℕ := none
  level : Option ℕ := none
  relation_to : Option ℕ := none
  doc_title : Option PyStr := none
  doc_path : Option PyStr := none
deriving DecidableEq, Repr

/-- The external capabilities `HierarchicalSearch.search` consumes: the
embedding model's `encode` and the four database queries.  Every one can
fail, and the enclosing `try` maps any failure to the empty result. -/
structure SearchEnv where
  encode : PyStr → Except Unit (List ℚ)
  fetchKeywordRows : List PyStr → List ℚ → Except Unit (List KeywordRow)
  fetchSemanticRows : List ℚ → ℚ → ℕ → Except Unit (List SemanticRow)
  fetchRelRows : List ℕ → Except Unit (List RelQueryRow)
  fetchDocument : ℕ → Except Unit (Option (PyStr × PyStr))

/-- Python's `sorted(results, key=lambda x: x["relevance"], reverse=True)`:
stable descending sort by relevance. -/
def sortByRelevanceDesc (l : List SearchResult) : List SearchResult :=
  l.insertionSort (fun a b => b.relevance ≤ a.relevance)

/-- The keyword-match entry built in `_combine_search_results` (lines
167-193): metadata sets `has_keywords` (and the scorer-ignored
`importance`), the relevance comes from `calculate_relevance_score`. -/
def mkKeywordEntry (config : SearchConfig) (row : KeywordRow) : SearchResult :=
  { id := row.node_id, title := row.title, content := row.content,
    document_id := row.document_id,
    relevance := calculate_relevance_score row.similarity "keyword".data config
      (some { has_keywords := true, importance := some row.importance }),
    match_type := "keyword".data, keyword := some row.keyword }

/-- Phase 1 of `_combine_search_results`: add keyword matches, deduplicated
by node id. -/
def addKeywordMatches (config : SearchConfig) (rows : List KeywordRow)
    (seen : List ℕ) (ranked : List SearchResult) : List ℕ × List SearchResult :=
  rows.foldl (fun acc row =>
    if row.node_id ∈ acc.1 then acc
    else (acc.1 ++ [row.node_id], acc.2 ++ [mkKeywordEntry config row])) (seen, ranked)

/-- The semantic-match entry built in `_combine_search_results` (lines
199-226).  `is_title` is computed as
`row["title"].lower() in query.lower() if hasattr(self, 'query') else False`;
`HierarchicalSearch` never sets a `query` attribute, so the flag is always
`False`. -/
def mkSemanticEntry (config : SearchConfig) (row : SemanticRow) : SearchResult :=
  { id := row.id, title := row.title, content := row.content,
    document_id := row.document_id,
    relevance := calculate_relevance_score row.similarity "semantic".data config
      (some { is_title := false, level := some row.doc_level }),
    match_type := "semantic".data, parent_id := row.parent_id, level := some row.doc_level }

/-- Phase 2 of `_combine_search_results`: add semantic matches above the
redundant minimum-relevance threshold, deduplicated by node id. -/
def addSemanticMatches (config : SearchConfig) (rows : List SemanticRow)
    (seen : List ℕ) (ranked : List SearchResult) : List ℕ × List SearchResult :=
  rows.foldl (fun acc row =>
    if row.id ∉ acc.1 ∧ config.similarity_threshold ≤ row.similarity then
      (acc.1 ++ [row.id], acc.2 ++ [mkSemanticEntry config row])
    else acc) (seen, ranked)

/-- Phase 3 of `_combine_search_results` (lines 230-277): for the top
`max_depth` results of the relevance-sorted list, fetch related rows and
append derived entries with relevance `source.relevance × strength`. -/
def addRelatedMatches (top : List SearchResult) (rels : List RelQueryRow)
    (seen : List ℕ) (ranked : List SearchResult) : List ℕ × List SearchResult :=
  rels.foldl (fun acc rel =>
    if rel.target_id ∈ acc.1 then acc
    else
      let seen' := acc.1 ++ [rel.target_id]
      match top.find? (fun r => r.id = rel.source_id) with
      | some src =>
        (seen', acc.2 ++
          [{ id := rel.target_id, title := rel.title, content := rel.content,
             document_id := rel.document_id,
             relevance := src.relevance * rel.strength,
             match_type := "related-".data ++ rel.relationship_type,
             relation_to := some rel.source_id }])
      | none => (seen', acc.2)) (seen, ranked)

/-- Document enrichment of one result (lines 283-292). -/
def enrichOne (env : SearchEnv) (r : SearchResult) : Except Unit SearchResult := do
  match ← env.fetchDocument r.document_id with
  | some d => pure { r with doc_title := some d.1, doc_path := some d.2 }
  | none =>
    pure { r with doc_title := some "Unknown Document".data, doc_path := some "N/A".data }

/-- Document enrichment of the final results (lines 283-292). -/
def enrichWithDocuments (env : SearchEnv) (results : List SearchResult) :
    Except Unit (List SearchResult) :=
  results.mapM (enrichOne env)

/-- `HierarchicalSearch._combine_search_results` (lines 149-294). -/
def combineSearchResults (env : SearchEnv) (config : SearchConfig)
    (keyword_results : List KeywordRow) (semantic_results : List SemanticRow) :
    Except Unit (List SearchResult) := do
  let (seen, ranked) := addKeywordMatches config keyword_results [] []
  let (seen, ranked) := addSemanticMatches config semantic_results seen ranked
  let ranked ←
    if ranked.isEmpty then pure ranked
    else do
      let ranked := sortByRelevanceDesc ranked
      let top := ranked.take config.max_depth
      let rels ← env.fetchRelRows (top.map (·.id))
      pure (addRelatedMatches top rels seen ranked).2
  let final := (sortByRelevanceDesc ranked).take config.top_k
  enrichWithDocuments env final

/-- Query cleaning of `search` (line 71): `re.sub(r'[^\w\s]', ' ', ...)`
replaces every character that is neither a word character nor whitespace
by a space. -/
def cleanQuery (query : PyStr) : PyStr :=
  (pyLower query).map fun c =>
    if c.isAlphanum ∨ c = '_' ∨ c.isWhitespace then c else ' '

/-- `diversity_score` accumulation of `optimize_result_diversity` (lines
275-285): +0.5 per selected result from another document, +0.3 for another
level, +0.2 for another match type. -/
def diversityScore (selected : List SearchResult) (cand : SearchResult) : ℚ :=
  selected.foldl (fun acc sel =>
    let acc := if cand.document_id ≠ sel.document_id then acc + 0.5 else acc
    let acc := if cand.level ≠ sel.level then acc + 0.3 else acc
    if cand.match_type ≠ sel.match_type then acc + 0.2 else acc) 0

/-- The argmax scan of `optimize_result_diversity` (lines 270-292):
starting from `best_score = -1, best_index = 0`, keep the first strictly
greater combined score. -/
def pickBestIndex (diversity_factor : ℚ) (selected remaining : List SearchResult) : ℕ :=
  (remaining.enum.foldl (fun (best : ℚ × ℕ) p =>
    let combined := p.2.relevance * (1 - diversity_factor) +
      diversityScore selected p.2 * diversity_factor
    if best.1 < combined then (combined, p.1) else best) (-1, 0)).2

/-- The greedy selection loop of `optimize_result_diversity` (lines
268-294), with fuel equal to the number of remaining results. -/
def diversityLoop (diversity_factor : ℚ) :
    ℕ → List SearchResult → List SearchResult → List SearchResult
  | 0, _, _ => []
  | fuel + 1, remaining, selected =>
    let i := pickBestIndex diversity_factor selected remaining
    match remaining[i]? with
    | some c =>
      c :: diversityLoop diversity_factor fuel (remaining.eraseIdx i) (selected ++ [c])
    | none => []

/-- `SearchOptimizer.optimize_result_diversity` (lines 244-296): keep the
first result, then greedily pick by combined relevance/diversity score. -/
def optimize_result_diversity (results : List SearchResult)
    (diversity_factor : ℚ := 0.3) : List SearchResult :=
  match results with
  | [] => []
  | r0 :: rest =>
    if rest.isEmpty then results
    else r0 :: diversityLoop diversity_factor rest.length rest [r0]

/-- Configuration resolution of `search` (lines 42-50): explicit config,
else strategy preset, else automatic selection; then `config.top_k =
limit`, an in-place mutation that also writes through to the shared preset
slot when the config came from the shared dict. -/
def resolveConfig (s : StrategyConfigs) (search_config : Option SearchConfig)
    (strategy : Option SearchStrategy) (query : PyStr) (limit : ℕ) :
    SearchConfig × StrategyConfigs :=
  match search_config with
  | some c => ({ c with top_k := limit }, s)
  | none =>
    match strategy with
    | some st =>
      let c := { get_config_for_strategy s st with top_k := limit }
      (c, setConfigSlot s st c)
    | none =>
      let (slot, c0) := optimizeSelect s query
      let c := { c0 with top_k := limit }
      (c, setConfigSlot s slot c)

/-- The body of the `try` block of `HierarchicalSearch.search` (lines
40-144): expand the query, embed it, run the keyword and semantic queries,
combine, and apply the diversity pass. -/
def searchAttempt (env : SearchEnv) (config : SearchConfig) (query : PyStr) :
    Except Unit (List SearchResult) := do
  let expansion_terms :=
    if config.enable_query_expansion then get_query_expansion_terms query config else []
  let query_embedding ← env.encode query
  let keywords :=
    ((pySplitWs (cleanQuery query)).map pyStrip).filter (fun kw => 2 < kw.length) ++
      expansion_terms
  let keyword_results ← env.fetchKeywordRows (keywords.take 5) query_embedding
  let semantic_results ←
    env.fetchSemanticRows query_embedding config.similarity_threshold config.top_k
  let combined ← combineSearchResults env config keyword_results semantic_results
  pure (if 1 < combined.length then optimize_result_diversity combined else combined)

/-- `HierarchicalSearch.search` (lines 28-147): resolve the configuration,
run the pipeline body, and map any exception anywhere in it to the empty
list (lines 145-147). -/
def search (s : StrategyConfigs) (search_config : Option SearchConfig)
    (strategy : Option SearchStrategy) (env : SearchEnv) (query : PyStr) (limit : ℕ) :
    List SearchResult × StrategyConfigs :=
  let (config, s') := resolveConfig s search_config strategy query limit
  match searchAttempt env config query with
  | .ok results => (results, s')
  | .error _ => ([], s')

/-! ### Search service (`search_service.py`) -/

/-- A display record built by `SearchService.search_docs` (lines 72-81). -/
structure DisplayResult where
  id : PyStr
  title : PyStr
  path : PyStr
  preview : PyStr
  relevance : ℤ
  match_type : PyStr
  document_id : Option ℕ
deriving DecidableEq, Repr

/-- The per-result transformation of `search_docs` (lines 49-81): clamp the
relevance into [0,1] and render as an integer percentage, truncate the
preview at 200 characters, humanize the match type. -/
def formatSearchResult (r : SearchResult) : DisplayResult :=
  let relevancePct := (max 0 (min 1 r.relevance) * 100).floor
  let preview :=
    if 200 < r.content.length then r.content.take 200 ++ "...".data else r.content
  let mt := r.match_type
  let display :=
    if mt = "keyword".data then "Keyword match".data
    else if mt = "semantic".data then "Semantic match".data
    else if "related".data.isPrefixOf mt then
      "Related content (".data ++ ((splitOnChar '-' mt).getD 1 []) ++ [')']
    else "Unknown match".data
  { id := r.doc_title.getD "N/A".data, title := r.title,
    path := r.doc_path.getD "N/A".data, preview := preview,
    relevance := relevancePct, match_type := display,
    document_id := some r.document_id }

/-- `SearchService.search_docs` (lines 32-86) without its cache decorator:
run the engine's `search` (no explicit config, no strategy) and format
each result.  The source wraps the body in a `try` whose handler returns
`[{"error": ...}]`, but the engine's `search` already catches every
pipeline failure and the formatting above is total, so the handler is
unreachable for embedding/store failures. -/
def search_docs (s : StrategyConfigs) (env : SearchEnv) (query : PyStr) (limit : ℕ) :
    List DisplayResult × StrategyConfigs :=
  let (results, s') := search s none none env query limit
  (results.map formatSearchResult, s')

/-! ### TTL cache (`utils/cache.py`)

Wall-clock time is modelled as a natural number supplied to every
operation (the source calls `datetime.now()`); expiry of an entry stored
at `now` with ttl `t` is the instant `now + t`. -/

/-- A `CacheItem` (lines 9-35): the stored value (which may be Python's
`None`, modelled as `Option.none`) and its expiry instant. -/
structure CacheEntry (β : Type) where
  value : Option β
  expiry : ℕ
deriving DecidableEq, Repr

/-- The cache singleton's state (lines 57-63). -/
structure CacheState (κ β : Type) where
  store : List (κ × CacheEntry β) := []
  hits : ℕ := 0
  misses : ℕ := 0
  last_cleanup : ℕ := 0
deriving DecidableEq, Repr

/-- The cleanup interval: 10 minutes (line 63), in seconds. -/
def cleanupInterval : ℕ := 600

/-- `Cache.cleanup` (lines 138-155): drop every expired entry. -/
def cacheCleanup {κ β : Type} (now : ℕ) (s : CacheState κ β) : CacheState κ β :=
  { s with store := s.store.filter (fun kv => ¬ kv.2.expiry < now) }

/-- `Cache._maybe_cleanup` (lines 127-136): run a full cleanup at most once
per interval. -/
def cacheMaybeCleanup {κ β : Type} (now : ℕ) (s : CacheState κ β) : CacheState κ β :=
  if cleanupInterval < now - s.last_cleanup then
    { cacheCleanup now s with last_cleanup := now }
  else s

/-- `Cache.get` (lines 65-88): lazy cleanup, then lookup; a missing or
expired key is a miss (the expired entry is evicted), otherwise the stored
value is returned — a stored `None` is returned as `None` and is therefore
indistinguishable from a miss to the caller. -/
def cacheGet {κ β : Type} [DecidableEq κ] (s : CacheState κ β) (k : κ) (now : ℕ) :
    Option β × CacheState κ β :=
  let s := cacheMaybeCleanup now s
  match s.store.find? (fun kv => kv.1 = k) with
  | none => (none, { s with misses := s.misses + 1 })
  | some kv =>
    if kv.2.expiry < now then
      (none, { s with misses := s.misses + 1,
                      store := s.store.filter (fun kv' => kv'.1 ≠ k) })
    else (kv.2.value, { s with hits := s.hits + 1 })

/-- `Cache.set` (lines 90-100): lazy cleanup, then store with expiry
`now + ttl`. -/
def cacheSet {κ β : Type} [DecidableEq κ] (s : CacheState κ β) (k : κ) (v : Option β)
    (ttl now : ℕ) : CacheState κ β :=
  let s := cacheMaybeCleanup now s
  { s with store := (k, ⟨v, now + ttl⟩) :: s.store.filter (fun kv => kv.1 ≠ k) }

/-- One call through the `cached` decorator's wrapper (lines 198-228):
check the cache; a non-`None` cached value is returned directly; otherwise
the wrapped function executes (its result on this call is `fres`) and the
result — even `None` — is stored.  The returned flag records whether the
wrapped function was executed. -/
def cachedCall {κ β : Type} [DecidableEq κ] (s : CacheState κ β) (k : κ) (ttl now : ℕ)
    (fres : Option β) : Option β × CacheState κ β × Bool :=
  match cacheGet s k now with
  | (some v, s1) => (some v, s1, false)
  | (none, s1) => (fres, cacheSet s1 k fres ttl now, true)

/-! ### Spec-side definitions for refinement comparisons -/

/-- Modelled from the spec's words (§3, §8): the parent of a node is "the
nearest preceding node with `level < this.level`", i.e. among all
lower-level nodes with smaller sequence number, the one with the largest
sequence number. -/
def specNearestParentKey (nodes : List HNode) (node : HNode) : Option (ℕ × ℕ) :=
  ((nodes.filter fun n => n.level < node.level ∧ n.seq_num < node.seq_num).foldl
    (fun best n =>
      match best with
      | none => some n
      | some b => if b.seq_num < n.seq_num then some n else some b) none).map
    fun n => (n.level, n.seq_num)

/-- Modelled from the spec's words (§4.5 step 3): a keyword candidate's
relevance is `similarity × keywordWeight × keywordBoost`, `×titleBoost` if
the title overlaps the query, `×1.5` on exact match, capped at 1.0. -/
def specKeywordRelevance (similarity kw kb tb : ℚ) (titleOverlaps exact : Bool) : ℚ :=
  min 1 (similarity * kw * kb * (if titleOverlaps then tb else 1) *
    (if exact then 1.5 else 1))

/-! ### Concrete scenario inputs used by counterexamples and witnesses -/

/-- A database holding one previously indexed node (with one keyword) for
document 1. -/
def c1Db : PgState where
  hierarchy := [⟨1, 1, none, "Old".data, .str "x".data, [1], 1, 0⟩]
  keywords := [⟨1, "old".data, [1], 1⟩]
  relationships := []
  next_id := 2

/-- A search configuration with all weights and boosts equal to 1, so a
keyword candidate's relevance equals its similarity. -/
def c5Config : SearchConfig where
  top_k := 3
  similarity_threshold := 0
  keyword_weight := 1
  semantic_weight := 1
  enable_query_expansion := false
  max_depth := 3
  title_boost := 1
  keyword_boost := 1
  relationship_decay := 1

/-- A keyword row with the given node id, document id and similarity. -/
def c5Row (n d : ℕ) (sim : ℚ) : KeywordRow :=
  ⟨n, "k".data, 1, "t".data, "c".data, d, sim⟩

/-- An environment returning three keyword rows (two from document 1, one
from document 2), no semantic rows, no relationships and no document
metadata. -/
def c5Env : SearchEnv where
  encode := fun _ => .ok []
  fetchKeywordRows := fun _ _ => .ok [c5Row 1 1 0.9, c5Row 2 1 0.8, c5Row 3 2 0.7]
  fetchSemanticRows := fun _ _ _ => .ok []
  fetchRelRows := fun _ => .ok []
  fetchDocument := fun _ => .ok none

/-- An environment in which every external call fails. -/
def failEnv : SearchEnv where
  encode := fun _ => .error ()
  fetchKeywordRows := fun _ _ => .error ()
  fetchSemanticRows := fun _ _ _ => .error ()
  fetchRelRows := fun _ => .error ()
  fetchDocument := fun _ => .error ()

/-- An environment returning a single keyword row of similarity 0.4 whose
title does not overlap the query. -/
def c4Env : SearchEnv where
  encode := fun _ => .ok []
  fetchKeywordRows := fun _ _ => .ok [⟨7, "k".data, 1, "alpha".data, "c".data, 3, 0.4⟩]
  fetchSemanticRows := fun _ _ _ => .ok []
  fetchRelRows := fun _ => .ok []
  fetchDocument := fun _ => .ok none

/-- Nonnegativity of the tunable weights of a `SearchConfig`; every config
constructed in the source (the five presets and the dataclass defaults) has
nonnegative weights. -/
def ConfigNonneg (c : SearchConfig) : Prop :=
  0 ≤ c.keyword_weight ∧ 0 ≤ c.semantic_weight ∧ 0 ≤ c.keyword_boost ∧
    0 ≤ c.title_boost ∧ 0 ≤ c.relationship_decay

/-! ## Theorems -/

/-! ### C7: semantic relationship strength -/

theorem semStrength_of_lt {s : ℝ} (h : s < 0.7) : calculate_semantic_strength s = 0 := by
  rw [calculate_semantic_strength]
  norm_num [THRESHOLDS]
  intro h'
  linarith

theorem semStrength_of_ge {s : ℝ} (h : 0.7 ≤ s) :
    calculate_semantic_strength s =
      min 1 (0.7 + 0.3 * (1 / (1 + Real.exp (-6 * ((s - 0.7) / 0.3 - 0.5))))) := by
  rw [calculate_semantic_strength]
  norm_num [THRESHOLDS]
  rw [if_neg (by intro h'; linarith)]
  ring_nf

theorem semStrength_sigma_lt_one (s : ℝ) :
    1 / (1 + Real.exp (-6 * ((s - 0.7) / 0.3 - 0.5))) < 1 := by
  rw [div_lt_one (by positivity)]
  linarith [Real.exp_pos (-6 * ((s - 0.7) / 0.3 - 0.5))]

theorem semStrength_body_lt_one (s : ℝ) :
    0.7 + 0.3 * (1 / (1 + Real.exp (-6 * ((s - 0.7) / 0.3 - 0.5)))) < 1 := by
  have h := semStrength_sigma_lt_one s
  linarith

theorem semStrength_of_ge_unclamped {s : ℝ} (h : 0.7 ≤ s) :
    calculate_semantic_strength s =
      0.7 + 0.3 * (1 / (1 + Real.exp (-6 * ((s - 0.7) / 0.3 - 0.5)))) := by
  rw [semStrength_of_ge h, min_eq_right (le_of_lt (semStrength_body_lt_one s))]

theorem semStrength_strictMonoOn :
    StrictMonoOn calculate_semantic_strength (Set.Ici (0.7 : ℝ)) := by
  intro a ha b hb hab
  rw [semStrength_of_ge_unclamped ha, semStrength_of_ge_unclamped hb]
  have hexp : Real.exp (-6 * ((b - 0.7) / 0.3 - 0.5)) <
      Real.exp (-6 * ((a - 0.7) / 0.3 - 0.5)) := by
    apply Real.exp_lt_exp.2
    have hd : (a - 0.7) / 0.3 < (b - 0.7) / 0.3 :=
      (div_lt_div_iff_of_pos_right (by norm_num : (0:ℝ) < 0.3)).2 (by linarith)
    linarith
  have hlt : 1 / (1 + Real.exp (-6 * ((a - 0.7) / 0.3 - 0.5))) <
      1 / (1 + Real.exp (-6 * ((b - 0.7) / 0.3 - 0.5))) :=
    one_div_lt_one_div_of_lt (by positivity) (by linarith)
  linarith

theorem semStrength_continuousOn :
    ContinuousOn calculate_semantic_strength (Set.Ici (0.7 : ℝ)) := by
  have hg : Continuous fun s : ℝ =>
      min 1 (0.7 + 0.3 * (1 / (1 + Real.exp (-6 * ((s - 0.7) / 0.3 - 0.5))))) := by
    apply Continuous.min continuous_const
    apply Continuous.add continuous_const
    apply Continuous.mul continuous_const
    apply Continuous.div continuous_const
    · continuity
    · intro x
      positivity
  apply ContinuousOn.congr hg.continuousOn
  intro s hs
  exact semStrength_of_ge hs

/-- Claim C7: the semantic relationship strength is 0 below cosine
similarity 0.7; at or above 0.7 it equals
`min 1 (0.7 + 0.3 · (1 / (1 + e^(−6(x−0.5)))))` with `x = (sim − 0.7)/0.3`;
it is strictly increasing and continuous on `[0.7, ∞)`; and similarity
0.85 yields strength exactly 0.85. -/
theorem C7_semantic_strength :
    (∀ s : ℝ, s < 0.7 → calculate_semantic_strength s = 0) ∧
    (∀ s : ℝ, 0.7 ≤ s → calculate_semantic_strength s =
      min 1 (0.7 + 0.3 * (1 / (1 + Real.exp (-6 * ((s - 0.7) / 0.3 - 0.5)))))) ∧
    StrictMonoOn calculate_semantic_strength (Set.Ici (0.7 : ℝ)) ∧
    ContinuousOn calculate_semantic_strength (Set.Ici (0.7 : ℝ)) ∧
    calculate_semantic_strength 0.85 = 0.85 := by
  refine ⟨fun s h => semStrength_of_lt h, fun s h => semStrength_of_ge h,
    semStrength_strictMonoOn, semStrength_continuousOn, ?_⟩
  rw [semStrength_of_ge_unclamped (by norm_num)]
  have h0 : (-6 * ((0.85 - 0.7) / 0.3 - 0.5) : ℝ) = 0 := by norm_num
  rw [h0, Real.exp_zero]
  norm_num

/-- Witness for C7 at similarity 0.5 (below threshold) and 0.85. -/
theorem C7_semantic_strength_witness :
    calculate_semantic_strength 0.5 = 0 ∧ calculate_semantic_strength 0.85 = 0.85 :=
  ⟨C7_semantic_strength.1 0.5 (by norm_num), C7_semantic_strength.2.2.2.2⟩

/-! ### C9: sibling relationship completeness -/

theorem sibling_strength_formula (d : ℕ) :
    calculate_sibling_strength 0 d = max 0.3 (0.8 - 0.1 * (d : ℚ)) := by
  simp [calculate_sibling_strength, THRESHOLDS]

theorem sibling_strength_ge (d : ℕ) : (0.3 : ℚ) ≤ calculate_sibling_strength 0 d := by
  rw [sibling_strength_formula]
  exact le_max_left _ _

theorem sibling_gate_accepts (d : ℕ) :
    should_create_relationship .sibling (calculate_sibling_strength 0 d) = true := by
  simp [should_create_relationship, THRESHOLDS]
  exact sibling_strength_ge d

/-- Claim C9: for every ordered pair of distinct `node_ids` entries at the
same level, the sibling strength is `max 0.3 (0.8 − 0.1·distance)`, never
below the sibling minimum 0.3, the creation gate accepts it, and the
relationship row is inserted in both directions with the same strength. -/
theorem C9_sibling_edges_complete (doc_id : ℕ) (node_ids : List ((ℕ × ℕ) × ℕ))
    (db : PgState) (db_sim : List ℚ → List ℚ → ℝ) (i j : ℕ) (a b : (ℕ × ℕ) × ℕ)
    (ha : node_ids[i]? = some a) (hb : node_ids[j]? = some b)
    (hij : i ≠ j) (hlvl : a.1.1 = b.1.1)
    (strength : ℚ) (hstr : strength = calculate_sibling_strength 0 (Nat.dist a.1.2 b.1.2)) :
    (0.3 : ℚ) ≤ strength ∧
    strength = max 0.3 (0.8 - 0.1 * ((Nat.dist a.1.2 b.1.2 : ℕ) : ℚ)) ∧
    should_create_relationship .sibling strength = true ∧
    (⟨a.2, b.2, "sibling".data, (strength : ℝ)⟩ : RelDbRow) ∈
      createNodeRelationships doc_id node_ids db db_sim ∧
    (⟨b.2, a.2, "sibling".data, (strength : ℝ)⟩ : RelDbRow) ∈
      createNodeRelationships doc_id node_ids db db_sim := by
  subst hstr
  refine ⟨sibling_strength_ge _, sibling_strength_formula _, sibling_gate_accepts _, ?_, ?_⟩
  · rw [createNodeRelationships]
    apply List.mem_flatMap.2
    refine ⟨(i, a), List.mem_enum_iff_getElem?.2 ha, ?_⟩
    apply List.mem_append_left
    apply List.mem_filterMap.2
    refine ⟨(j, b), List.mem_enum_iff_getElem?.2 hb, ?_⟩
    simp only [hij, hlvl, ne_eq, not_false_iff, true_and, if_true, sibling_gate_accepts]
  · rw [createNodeRelationships]
    apply List.mem_flatMap.2
    refine ⟨(j, b), List.mem_enum_iff_getElem?.2 hb, ?_⟩
    apply List.mem_append_left
    apply List.mem_filterMap.2
    refine ⟨(i, a), List.mem_enum_iff_getElem?.2 ha, ?_⟩
    rw [Nat.dist_comm a.1.2 b.1.2]
    simp only [Ne.symm hij, hlvl.symm, ne_eq, not_false_iff, true_and, if_true,
      sibling_gate_accepts]

/-- Witness for C9: two level-1 nodes at sequence distance 1 yield mutual
sibling edges of strength 0.7. -/
theorem C9_sibling_edges_complete_witness :
    (0.3 : ℚ) ≤ (0.7 : ℚ) ∧
    (0.7 : ℚ) = max 0.3 (0.8 - 0.1 * ((Nat.dist 0 1 : ℕ) : ℚ)) ∧
    should_create_relationship .sibling 0.7 = true ∧
    (⟨10, 11, "sibling".data, ((0.7 : ℚ) : ℝ)⟩ : RelDbRow) ∈
      createNodeRelationships 1 [((1, 0), 10), ((1, 1), 11)]
        ⟨[], [], [], 0⟩ (fun _ _ => 0) ∧
    (⟨11, 10, "sibling".data, ((0.7 : ℚ) : ℝ)⟩ : RelDbRow) ∈
      createNodeRelationships 1 [((1, 0), 10), ((1, 1), 11)]
        ⟨[], [], [], 0⟩ (fun _ _ => 0) :=
  C9_sibling_edges_complete 1 [((1, 0), 10), ((1, 1), 11)] ⟨[], [], [], 0⟩ (fun _ _ => 0)
    0 1 ((1, 0), 10) ((1, 1), 11) rfl rfl (by decide) rfl 0.7
    (by norm_num [calculate_sibling_strength, THRESHOLDS, Nat.dist])

/-! ### C10: cache treatment of None and TTL -/

theorem find?_key_none {κ β : Type} [DecidableEq κ] (l : List (κ × CacheEntry β)) (k : κ)
    (h : ∀ kv ∈ l, kv.1 ≠ k) : l.find? (fun kv => kv.1 = k) = none := by
  apply List.find?_eq_none.2
  intro kv hkv
  simp [h kv hkv]

theorem cacheGet_after_set {κ β : Type} [DecidableEq κ] (s : CacheState κ β) (k : κ)
    (v : Option β) (ttl now now' : ℕ) :
    (cacheGet (cacheSet s k v ttl now) k now').1 =
      if now + ttl < now' then none else v := by
  set s0 := cacheMaybeCleanup now s with hs0
  have hstore : (cacheSet s k v ttl now).store =
      (k, ⟨v, now + ttl⟩) :: s0.store.filter (fun kv => kv.1 ≠ k) := rfl
  rw [cacheGet]
  rcases le_or_lt now' (now + ttl) with hle | hlt
  · rw [if_neg (by omega)]
    by_cases hcl : cleanupInterval < now' - (cacheSet s k v ttl now).last_cleanup
    · rw [cacheMaybeCleanup, if_pos hcl]
      have hclean : (cacheCleanup now' (cacheSet s k v ttl now)).store =
          (k, (⟨v, now + ttl⟩ : CacheEntry β)) ::
            (s0.store.filter (fun kv => kv.1 ≠ k)).filter
              (fun kv => ¬ kv.2.expiry < now') := by
        rw [cacheCleanup, hstore]
        rw [List.filter_cons_of_pos (by simp; omega)]
      simp only [hclean]
      rw [List.find?_cons_of_pos _ (by simp)]
      simp only []
      rw [if_neg (by simp; omega)]
    · rw [cacheMaybeCleanup, if_neg hcl]
      simp only [hstore]
      rw [List.find?_cons_of_pos _ (by simp)]
      simp only []
      rw [if_neg (by simp; omega)]
  · rw [if_pos hlt]
    by_cases hcl : cleanupInterval < now' - (cacheSet s k v ttl now).last_cleanup
    · rw [cacheMaybeCleanup, if_pos hcl]
      have hclean : (cacheCleanup now' (cacheSet s k v ttl now)).store =
          (s0.store.filter (fun kv => kv.1 ≠ k)).filter
            (fun kv => ¬ kv.2.expiry < now') := by
        rw [cacheCleanup, hstore]
        rw [List.filter_cons_of_neg (by simp; omega)]
      simp only [hclean]
      rw [find?_key_none]
      intro kv hkv
      have h1 := List.mem_filter.1 hkv
      have h2 := List.mem_filter.1 h1.1
      simpa using h2.2
    · rw [cacheMaybeCleanup, if_neg hcl]
      simp only [hstore]
      rw [List.find?_cons_of_pos _ (by simp)]
      simp only []
      rw [if_pos (by simpa using hlt)]

theorem cachedCall_of_miss {κ β : Type} [DecidableEq κ] (s : CacheState κ β) (k : κ)
    (ttl now : ℕ) (r : Option β) (h : (cacheGet s k now).1 = none) :
    cachedCall s k ttl now r = (r, cacheSet (cacheGet s k now).2 k r ttl now, true) := by
  rcases hg : cacheGet s k now with ⟨v1, s1⟩
  rw [hg] at h
  simp only at h
  subst h
  simp [cachedCall, hg]

/-- Claim C10: through the cache decorator's wrapper, a miss executes the
wrapped function and returns its result; after a call that stored `None`,
every later call on that key still executes the function (a stored `None`
is never served); a non-`None` result stored on a miss is returned and
served from the cache, without executing the function, at every time up to
its expiry instant, and a call after the expiry instant executes the
function again. -/
theorem C10_cached_none_and_ttl {κ β : Type} [DecidableEq κ] :
    (∀ (s : CacheState κ β) (k : κ) (ttl now : ℕ) (r : Option β),
      (cacheGet s k now).1 = none →
        (cachedCall s k ttl now r).1 = r ∧ (cachedCall s k ttl now r).2.2 = true) ∧
    (∀ (s : CacheState κ β) (k : κ) (ttl now : ℕ),
      (cacheGet s k now).1 = none →
        ∀ (ttl' now' : ℕ) (r' : Option β),
          (cachedCall (cachedCall s k ttl now none).2.1 k ttl' now' r').1 = r' ∧
          (cachedCall (cachedCall s k ttl now none).2.1 k ttl' now' r').2.2 = true) ∧
    (∀ (s : CacheState κ β) (k : κ) (ttl now : ℕ) (v : β),
      (cacheGet s k now).1 = none →
        (cachedCall s k ttl now (some v)).1 = some v ∧
        ∀ (ttl' now' : ℕ) (r' : Option β), now' ≤ now + ttl →
          (cachedCall (cachedCall s k ttl now (some v)).2.1 k ttl' now' r').1 = some v ∧
          (cachedCall (cachedCall s k ttl now (some v)).2.1 k ttl' now' r').2.2 = false) ∧
    (∀ (s : CacheState κ β) (k : κ) (ttl now : ℕ) (v : β),
      (cacheGet s k now).1 = none →
        ∀ (ttl' now' : ℕ) (r' : Option β), now + ttl < now' →
          (cachedCall (cachedCall s k ttl now (some v)).2.1 k ttl' now' r').2.2 = true) := by
  refine ⟨?_, ?_, ?_, ?_⟩
  · intro s k ttl now r h
    rw [cachedCall_of_miss s k ttl now r h]
    exact ⟨rfl, rfl⟩
  · intro s k ttl now h ttl' now' r'
    rw [cachedCall_of_miss s k ttl now none h]
    have hnone : (cacheGet (cacheSet (cacheGet s k now).2 k none ttl now) k now').1 =
        none := by
      rw [cacheGet_after_set]
      split <;> rfl
    rw [cachedCall_of_miss _ k ttl' now' r' hnone]
    exact ⟨rfl, rfl⟩
  · intro s k ttl now v h
    rw [cachedCall_of_miss s k ttl now (some v) h]
    refine ⟨rfl, ?_⟩
    intro ttl' now' r' hlive
    have hv : (cacheGet (cacheSet (cacheGet s k now).2 k (some v) ttl now) k now').1 =
        some v := by
      rw [cacheGet_after_set]
      rw [if_neg (by omega)]
    simp only []
    rcases hg : cacheGet (cacheSet (cacheGet s k now).2 k (some v) ttl now) k now' with ⟨v1, s1⟩
    rw [hg] at hv
    simp only at hv
    subst hv
    simp [cachedCall, hg]
  · intro s k ttl now v h ttl' now' r' hexp
    rw [cachedCall_of_miss s k ttl now (some v) h]
    have hnone : (cacheGet (cacheSet (cacheGet s k now).2 k (some v) ttl now) k now').1 =
        none := by
      rw [cacheGet_after_set]
      rw [if_pos hexp]
    rw [cachedCall_of_miss _ k ttl' now' r' hnone]

/-- Witness for C10 on the empty cache with the 300-second search TTL: a
`None` result is re-executed on the next call, and an empty-list result is
served from the cache before expiry and re-executed after it. -/
theorem C10_cached_none_and_ttl_witness :
    ((cachedCall (cachedCall ({} : CacheState ℕ (List ℕ)) 0 300 0 none).2.1
        0 300 60 (some [1])).2.2 = true) ∧
    ((cachedCall (cachedCall ({} : CacheState ℕ (List ℕ)) 0 300 0 (some [])).2.1
        0 300 60 (some [1])).1 = some []) ∧
    ((cachedCall (cachedCall ({} : CacheState ℕ (List ℕ)) 0 300 0 (some [])).2.1
        0 300 60 (some [1])).2.2 = false) ∧
    ((cachedCall (cachedCall ({} : CacheState ℕ (List ℕ)) 0 300 0 (some [])).2.1
        0 300 400 (some [1])).2.2 = true) :=
  ⟨((@C10_cached_none_and_ttl ℕ (List ℕ) _).2.1 {} 0 300 0 (by decide) 300 60 (some [1])).2,
   (((@C10_cached_none_and_ttl ℕ (List ℕ) _).2.2.1 {} 0 300 0 [] (by decide)).2 300 60
     (some [1]) (by decide)).1,
   (((@C10_cached_none_and_ttl ℕ (List ℕ) _).2.2.1 {} 0 300 0 [] (by decide)).2 300 60
     (some [1]) (by decide)).2,
   (@C10_cached_none_and_ttl ℕ (List ℕ) _).2.2.2 {} 0 300 0 [] (by decide) 300 400
     (some [1]) (by decide)⟩

/-! ### C8: automatic strategy selection for "API docs" -/

/-- Counterexample for C8 as stated: after an earlier automatic selection
for the two-token interrogative query "what now" (which mutates the shared
Precision preset in place), the selection for "API docs" returns a config
with `enable_query_expansion = true`, contradicting the claim that every
such invocation returns `enableExpansion = false` regardless of earlier
selections. -/
theorem C8_shared_config_counterexample :
    (optimize_for_query_type
      (optimize_for_query_type initialStrategyConfigs "what now".data).2
      "API docs".data).1.enable_query_expansion = true := by decide

/-- Claim C8 (amended): the config returned for "API docs" always carries
`keyword_weight = 0.8 > semantic_weight = 0.2` (both are reassigned on
every call), but it is the shared mutable Precision preset, so its
`enable_query_expansion` flag is whatever the preset currently holds; it
is `false` from the initial preset state (e.g. in a fresh process). -/
theorem C8_api_docs_selection :
    (∀ s : StrategyConfigs,
      (optimize_for_query_type s "API docs".data).1.keyword_weight = 0.8 ∧
      (optimize_for_query_type s "API docs".data).1.semantic_weight = 0.2 ∧
      (optimize_for_query_type s "API docs".data).1.semantic_weight <
        (optimize_for_query_type s "API docs".data).1.keyword_weight ∧
      (optimize_for_query_type s "API docs".data).1.enable_query_expansion =
        s.precisionSlot.enable_query_expansion) ∧
    (optimize_for_query_type initialStrategyConfigs
      "API docs".data).1.enable_query_expansion = false := by
  constructor
  · intro s
    have hlen : (pySplitWs "API docs".data).length = 2 := by decide
    have hq : isQuestionQuery "API docs".data = false := by decide
    refine ⟨?_, ?_, ?_, ?_⟩ <;>
      simp [optimize_for_query_type, optimizeSelect, get_config_for_strategy, hlen, hq]
    norm_num
  · decide

/-! ### C1: indexing is not all-or-nothing -/

/-- Claim C1 evaluated at the failing input: with one previously indexed
node for document 1, rebuilding with an embedding provider that fails
returns `False`, yet the committed state has lost the document's hierarchy
row and keyword row — the deletes were committed before the rebuild, so
the previous index is not left intact. -/
theorem C1_failed_rebuild_loses_old_index :
    (generate_hierarchical_index c1Db 1 "# A".data (fun _ => .error ())
      (fun _ _ => []) (fun _ _ => 0)).1 = false ∧
    (c1Db.hierarchy.filter (fun r => r.document_id = 1)).length = 1 ∧
    ((generate_hierarchical_index c1Db 1 "# A".data (fun _ => .error ())
      (fun _ _ => []) (fun _ _ => 0)).2.hierarchy.filter
        (fun r => r.document_id = 1)).length = 0 ∧
    (generate_hierarchical_index c1Db 1 "# A".data (fun _ => .error ())
      (fun _ _ => []) (fun _ _ => 0)).2.keywords.length = 0 := by
  refine ⟨?_, ?_, ?_, ?_⟩
  · rfl
  · decide
  · decide
  · decide

/-! ### C2: search never raises and fails to the empty list -/

theorem exceptBind_error {α β : Type} (u : Unit) (f : α → Except Unit β) :
    (Except.error u >>= f : Except Unit β) = Except.error u := rfl

theorem exceptBind_ok {α β : Type} (a : α) (f : α → Except Unit β) :
    (Except.ok a >>= f : Except Unit β) = f a := rfl

theorem exceptPure_bind {α β : Type} (a : α) (f : α → Except Unit β) :
    ((pure a : Except Unit α) >>= f) = f a := rfl

theorem mapM_error_cons {α β : Type} (f : α → Except Unit β) (a : α) (l : List α)
    (h : f a = .error ()) : (a :: l).mapM f = .error () := by
  rw [List.mapM_cons, h]
  rfl

theorem enrich_error (env : SearchEnv) (r : SearchResult) (rs : List SearchResult)
    (h : ∀ d, env.fetchDocument d = .error ()) :
    enrichWithDocuments env (r :: rs) = .error () := by
  rw [enrichWithDocuments]
  apply mapM_error_cons
  rw [enrichOne, h]
  rfl

theorem enrich_nil (env : SearchEnv) : enrichWithDocuments env [] = .ok [] := rfl

theorem combine_ranked_empty (env : SearchEnv) (config : SearchConfig)
    (krows : List KeywordRow) (srows : List SemanticRow) (seen2 : List ℕ)
    (hs : addSemanticMatches config srows (addKeywordMatches config krows [] []).1
      (addKeywordMatches config krows [] []).2 = (seen2, [])) :
    combineSearchResults env config krows srows = .ok [] := by
  rw [combineSearchResults]
  simp only [hs, List.isEmpty_nil, if_pos, exceptPure_bind]
  rw [show sortByRelevanceDesc [] = [] from rfl, List.take_nil]
  rfl

theorem combine_relfail (env : SearchEnv) (config : SearchConfig)
    (krows : List KeywordRow) (srows : List SemanticRow)
    (hrel : ∀ ids, env.fetchRelRows ids = .error ()) :
    combineSearchResults env config krows srows = .ok [] ∨
    combineSearchResults env config krows srows = .error () := by
  rcases hs : addSemanticMatches config srows (addKeywordMatches config krows [] []).1
      (addKeywordMatches config krows [] []).2 with ⟨seen2, ranked2⟩
  by_cases hr : ranked2.isEmpty
  · left
    have h2 : ranked2 = [] := List.isEmpty_iff.1 hr
    subst h2
    exact combine_ranked_empty env config krows srows seen2 hs
  · right
    rw [combineSearchResults]
    simp only [hs, hr, if_neg, Bool.false_eq_true, if_false, hrel, exceptBind_error]

theorem combine_docfail (env : SearchEnv) (config : SearchConfig)
    (krows : List KeywordRow) (srows : List SemanticRow)
    (hdoc : ∀ d, env.fetchDocument d = .error ()) :
    combineSearchResults env config krows srows = .ok [] ∨
    combineSearchResults env config krows srows = .error () := by
  rcases hs : addSemanticMatches config srows (addKeywordMatches config krows [] []).1
      (addKeywordMatches config krows [] []).2 with ⟨seen2, ranked2⟩
  by_cases hr : ranked2.isEmpty
  · left
    have h2 : ranked2 = [] := List.isEmpty_iff.1 hr
    subst h2
    exact combine_ranked_empty env config krows srows seen2 hs
  · rcases hrel : env.fetchRelRows
        (((sortByRelevanceDesc ranked2).take config.max_depth).map (·.id)) with u | rels
    · right
      rw [combineSearchResults]
      simp only [hs, hr, if_neg, Bool.false_eq_true, if_false, hrel, exceptBind_error]
    · rcases hfin : (sortByRelevanceDesc
          (addRelatedMatches ((sortByRelevanceDesc ranked2).take config.max_depth) rels
            seen2 (sortByRelevanceDesc ranked2)).2).take config.top_k with _ | ⟨r, rs⟩
      · left
        rw [combineSearchResults]
        simp only [hs, hr, if_neg, Bool.false_eq_true, if_false, hrel, exceptBind_ok,
          exceptPure_bind, hfin]
        exact enrich_nil env
      · right
        rw [combineSearchResults]
        simp only [hs, hr, if_neg, Bool.false_eq_true, if_false, hrel, exceptBind_ok,
          exceptPure_bind, hfin]
        exact enrich_error env r rs hdoc

theorem attempt_error_encode (env : SearchEnv) (config : SearchConfig) (query : PyStr)
    (h : env.encode query = .error ()) : searchAttempt env config query = .error () := by
  rw [searchAttempt]
  simp only [h, exceptBind_error]

theorem attempt_kwfail (env : SearchEnv) (config : SearchConfig) (query : PyStr)
    (h : ∀ kws e, env.fetchKeywordRows kws e = .error ()) :
    searchAttempt env config query = .error () := by
  rw [searchAttempt]
  rcases henc : env.encode query with u | emb
  · simp only [henc, exceptBind_error]
  · simp only [henc, exceptBind_ok, h, exceptBind_error]

theorem attempt_semfail (env : SearchEnv) (config : SearchConfig) (query : PyStr)
    (h : ∀ e th k, env.fetchSemanticRows e th k = .error ()) :
    searchAttempt env config query = .error () := by
  rw [searchAttempt]
  rcases henc : env.encode query with u | emb
  · simp only [henc, exceptBind_error]
  · rcases hkw : env.fetchKeywordRows
        ((((pySplitWs (cleanQuery query)).map pyStrip).filter (fun kw => 2 < kw.length) ++
          (if config.enable_query_expansion then get_query_expansion_terms query config
           else [])).take 5) emb with u | krows
    · simp only [henc, exceptBind_ok, hkw, exceptBind_error]
    · simp only [henc, exceptBind_ok, hkw, h, exceptBind_error]

theorem attempt_empty_of_combine (env : SearchEnv) (config : SearchConfig) (query : PyStr)
    (hcomb : ∀ krows srows, combineSearchResults env config krows srows = .ok [] ∨
      combineSearchResults env config krows srows = .error ()) :
    searchAttempt env config query = .error () ∨ searchAttempt env config query = .ok [] := by
  rw [searchAttempt]
  rcases henc : env.encode query with u | emb
  · left
    simp only [henc, exceptBind_error]
  · rcases hkw : env.fetchKeywordRows
        ((((pySplitWs (cleanQuery query)).map pyStrip).filter (fun kw => 2 < kw.length) ++
          (if config.enable_query_expansion then get_query_expansion_terms query config
           else [])).take 5) emb with u | krows
    · left
      simp only [henc, exceptBind_ok, hkw, exceptBind_error]
    · rcases hsem : env.fetchSemanticRows emb config.similarity_threshold config.top_k
          with u | srows
      · left
        simp only [henc, exceptBind_ok, hkw, hsem, exceptBind_error]
      · rcases hcomb krows srows with hok | herr
        · right
          simp only [henc, exceptBind_ok, hkw, hsem, hok, exceptPure_bind]
          rfl
        · left
          simp only [henc, exceptBind_ok, hkw, hsem, herr, exceptBind_error]

theorem search_empty_of_attempt (s : StrategyConfigs) (sc : Option SearchConfig)
    (st : Option SearchStrategy) (env : SearchEnv) (query : PyStr) (limit : ℕ)
    (h : ∀ config, searchAttempt env config query = .error () ∨
      searchAttempt env config query = .ok []) :
    (search s sc st env query limit).1 = [] := by
  rw [search]
  rcases hr : resolveConfig s sc st query limit with ⟨config, s'⟩
  rcases h config with he | he <;> simp only [he]

/-- Claim C2: for every query, limit and strategy choice, when any pipeline
stage fails (the embedding call, the keyword query, the semantic query,
the relationship query, or the document lookup), the exposed search
operation returns exactly the empty list, and the service-level
`search_docs` likewise returns the empty list — no exception propagates
and no non-empty error payload is produced for such failures. -/
theorem C2_search_fail_soft (s : StrategyConfigs) (sc : Option SearchConfig)
    (st : Option SearchStrategy) (env : SearchEnv) (query : PyStr) (limit : ℕ)
    (hfail : env.encode query = .error () ∨
      (∀ kws e, env.fetchKeywordRows kws e = .error ()) ∨
      (∀ e th k, env.fetchSemanticRows e th k = .error ()) ∨
      (∀ ids, env.fetchRelRows ids = .error ()) ∨
      (∀ d, env.fetchDocument d = .error ())) :
    (search s sc st env query limit).1 = [] ∧
    (search_docs s env query limit).1 = [] := by
  have key : ∀ config : SearchConfig, searchAttempt env config query = .error () ∨
      searchAttempt env config query = .ok [] := by
    intro config
    rcases hfail with h | h | h | h | h
    · exact Or.inl (attempt_error_encode env config query h)
    · exact Or.inl (attempt_kwfail env config query h)
    · exact Or.inl (attempt_semfail env config query h)
    · exact attempt_empty_of_combine env config query
        (fun krows srows => combine_relfail env config krows srows h)
    · exact attempt_empty_of_combine env config query
        (fun krows srows => combine_docfail env config krows srows h)
  refine ⟨search_empty_of_attempt s sc st env query limit key, ?_⟩
  have h0 : (search s none none env query limit).1 = [] :=
    search_empty_of_attempt s none none env query limit key
  rw [search_docs]
  rcases hsr : search s none none env query limit with ⟨results, s2⟩
  rw [hsr] at h0
  simp only at h0
  subst h0
  rfl

/-- Witness for C2 on the environment in which every external call fails. -/
theorem C2_search_fail_soft_witness :
    (failEnv.encode "beta".data = .error () ∨
      (∀ kws e, failEnv.fetchKeywordRows kws e = .error ()) ∨
      (∀ e th k, failEnv.fetchSemanticRows e th k = .error ()) ∨
      (∀ ids, failEnv.fetchRelRows ids = .error ()) ∨
      (∀ d, failEnv.fetchDocument d = .error ())) ∧
    (search initialStrategyConfigs none none failEnv "beta".data 5).1 = [] ∧
    (search_docs initialStrategyConfigs failEnv "beta".data 5).1 = [] :=
  ⟨Or.inl rfl,
   C2_search_fail_soft initialStrategyConfigs none none failEnv "beta".data 5 (Or.inl rfl)⟩

/-! ### C4: keyword-match relevance in the merge -/

/-- Counterexample for C4 as stated: with the default configuration
(keywordWeight 0.6, keywordBoost 1.5, titleBoost 2.0) and a keyword row of
similarity 0.4 whose title does not overlap the query, the merge assigns
relevance 0.54 = 0.4 × 0.6 × 1.5 × 1.5 (the keyword boost is applied twice,
once for the match type and once for the always-set has_keywords metadata
flag), while the claim's formula yields 0.36 — the two differ. -/
theorem C4_keyword_relevance_counterexample :
    combineSearchResults c4Env {} [⟨7, "k".data, 1, "alpha".data, "c".data, 3, 0.4⟩] [] =
      .ok [{ id := 7, title := "alpha".data, content := "c".data, document_id := 3,
             relevance := 0.54, match_type := "keyword".data, keyword := some "k".data,
             doc_title := some "Unknown Document".data,
             doc_path := some "N/A".data }] ∧
    specKeywordRelevance 0.4 0.6 1.5 2.0 false false = 0.36 ∧
    (0.54 : ℚ) ≠ 0.36 := by
  refine ⟨?_, by norm_num [specKeywordRelevance], by norm_num⟩
  norm_num [combineSearchResults, addKeywordMatches, addSemanticMatches, mkKeywordEntry,
    calculate_relevance_score, sortByRelevanceDesc, List.insertionSort, addRelatedMatches,
    enrichWithDocuments, c4Env, List.mapM_cons, List.mapM_nil, List.mapM.loop,
    exceptBind_ok, exceptPure_bind]
  rfl

/-- Claim C4 (amended): every keyword candidate in the search merge gets
relevance `min (similarity × keywordWeight × keywordBoost × keywordBoost) 1`
— the keyword boost enters once through the match-type weighting and a
second time through the always-true `has_keywords` metadata flag; the
titleBoost and exact-match factors are never applied on this path because
the merge's metadata sets neither flag. -/
theorem C4_keyword_relevance_amended :
    (∀ (config : SearchConfig) (sim imp : ℚ),
      calculate_relevance_score sim "keyword".data config
        (some { has_keywords := true, importance := some imp }) =
      min (sim * (config.keyword_weight * config.keyword_boost) * config.keyword_boost) 1) ∧
    (∀ (config : SearchConfig) (rows : List KeywordRow) (seen : List ℕ)
      (ranked : List SearchResult) (r : SearchResult),
      r ∈ (addKeywordMatches config rows seen ranked).2 →
        r ∈ ranked ∨ ∃ row ∈ rows, r = mkKeywordEntry config row) ∧
    (∀ (config : SearchConfig) (row : KeywordRow),
      (mkKeywordEntry config row).relevance =
        min (row.similarity * (config.keyword_weight * config.keyword_boost) *
          config.keyword_boost) 1) := by
  have h1 : ∀ (config : SearchConfig) (sim imp : ℚ),
      calculate_relevance_score sim "keyword".data config
        (some { has_keywords := true, importance := some imp }) =
      min (sim * (config.keyword_weight * config.keyword_boost) * config.keyword_boost) 1 := by
    intro config sim imp
    simp [calculate_relevance_score]
  refine ⟨h1, ?_, fun config row => h1 config row.similarity row.importance⟩
  intro config rows
  induction rows with
  | nil =>
    intro seen ranked r hr
    exact Or.inl hr
  | cons row rows ih =>
    intro seen ranked r hr
    rw [addKeywordMatches, List.foldl_cons] at hr
    by_cases hmem : row.node_id ∈ seen
    · rw [if_pos hmem] at hr
      rcases ih seen ranked r hr with h | ⟨row', hrow', heq⟩
      · exact Or.inl h
      · exact Or.inr ⟨row', List.mem_cons_of_mem _ hrow', heq⟩
    · rw [if_neg hmem] at hr
      rcases ih (seen ++ [row.node_id]) (ranked ++ [mkKeywordEntry config row]) r hr with
        h | ⟨row', hrow', heq⟩
      · rcases List.mem_append.1 h with h' | h'
        · exact Or.inl h'
        · exact Or.inr ⟨row, List.mem_cons_self _ _, List.mem_singleton.1 h' ⟩
      · exact Or.inr ⟨row', List.mem_cons_of_mem _ hrow', heq⟩

/-- Witness for C4's amended characterization at a concrete keyword row. -/
theorem C4_keyword_relevance_amended_witness :
    (mkKeywordEntry {} ⟨7, "k".data, 1, "alpha".data, "c".data, 3, 0.4⟩ ∈
      (addKeywordMatches {} [⟨7, "k".data, 1, "alpha".data, "c".data, 3, 0.4⟩] [] []).2) ∧
    (mkKeywordEntry {} ⟨7, "k".data, 1, "alpha".data, "c".data, 3, 0.4⟩ ∈
        ([] : List SearchResult) ∨
      ∃ row ∈ [(⟨7, "k".data, 1, "alpha".data, "c".data, 3, 0.4⟩ : KeywordRow)],
        mkKeywordEntry {} ⟨7, "k".data, 1, "alpha".data, "c".data, 3, 0.4⟩ =
          mkKeywordEntry {} row) :=
  have hmem : mkKeywordEntry {} ⟨7, "k".data, 1, "alpha".data, "c".data, 3, 0.4⟩ ∈
      (addKeywordMatches {} [⟨7, "k".data, 1, "alpha".data, "c".data, 3, 0.4⟩] [] []).2 := by
    simp [addKeywordMatches]
  ⟨hmem, C4_keyword_relevance_amended.2.1 {} _ [] [] _ hmem⟩


/-! ### C3: sequence numbers and parent resolution -/

/-- Counterexample for C3 as stated: for the content "## A\n# B\n### C",
node C (level 3, seq 2) is assigned parent key (2, 0) — the preceding
lower-level node of maximal (level, seq) in lexicographic tuple order —
whereas the nearest preceding lower-level node by sequence number is B
with key (1, 1). -/
theorem C3_parent_choice_counterexample :
    ((documentParentKeys "## A\n# B\n### C".data).map (fun p => p.2) =
      [none, none, some (2, 0)]) ∧
    (extract_hierarchy_from_markdown "## A\n# B\n### C".data)[2]? =
      some ⟨"C".data, .str [], 3, 2⟩ ∧
    specNearestParentKey (extract_hierarchy_from_markdown "## A\n# B\n### C".data)
      ⟨"C".data, .str [], 3, 2⟩ = some (1, 1) ∧
    ((2, 0) : ℕ × ℕ) ≠ (1, 1) := by decide

theorem extract_seq_is_range (content : PyStr) :
    (extract_hierarchy_from_markdown content).map (·.seq_num) =
      List.range (extract_hierarchy_from_markdown content).length := by
  show (extractHierarchyAdvanced content).map (·.seq_num) =
    List.range (extractHierarchyAdvanced content).length
  rw [extractHierarchyAdvanced]
  rw [List.map_map, List.length_map]
  have : ((fun x : HNode => x.seq_num) ∘ fun p : ℕ × Segment =>
      (⟨p.2.title, p.2.content, p.2.level, p.1⟩ : HNode)) = Prod.fst := rfl
  rw [this, List.enum_map_fst, List.enum_length]

theorem keyLe_refl (a : ℕ × ℕ) : keyLe a a := Or.inr ⟨rfl, le_refl _⟩

theorem keyLe_trans {a b c : ℕ × ℕ} (h1 : keyLe a b) (h2 : keyLe b c) : keyLe a c := by
  rcases h1 with h1 | ⟨h1, h1'⟩ <;> rcases h2 with h2 | ⟨h2, h2'⟩
  · exact Or.inl (h1.trans h2)
  · exact Or.inl (h2 ▸ h1)
  · exact Or.inl (h1 ▸ h2)
  · exact Or.inr ⟨h1.trans h2, h1'.trans h2'⟩

theorem keyLe_total (a b : ℕ × ℕ) : keyLe a b ∨ keyLe b a := by
  rcases lt_trichotomy a.1 b.1 with h | h | h
  · exact Or.inl (Or.inl h)
  · rcases le_total a.2 b.2 with h' | h'
    · exact Or.inl (Or.inr ⟨h, h'⟩)
    · exact Or.inr (Or.inr ⟨h.symm, h'⟩)
  · exact Or.inr (Or.inl h)

instance : IsTotal (ℕ × ℕ) (fun a b => keyLe b a) :=
  ⟨fun a b => (keyLe_total b a)⟩

instance : IsTrans (ℕ × ℕ) (fun a b => keyLe b a) :=
  ⟨fun _ _ _ h1 h2 => keyLe_trans h2 h1⟩

theorem sortedKeysDesc_perm (ks : List (ℕ × ℕ)) : (sortedKeysDesc ks).Perm ks :=
  List.perm_insertionSort _ _

theorem sortedKeysDesc_sorted (ks : List (ℕ × ℕ)) :
    (sortedKeysDesc ks).Sorted (fun a b => keyLe b a) :=
  List.sorted_insertionSort _ _

theorem find?_all_head {α : Type} (l : List α) (p : α → Bool) (h : ∀ x ∈ l, p x = true) :
    l.find? p = l.head? := by
  cases l with
  | nil => rfl
  | cons a t => exact List.find?_cons_of_pos _ (h a (List.mem_cons_self _ _))

theorem sorted_head_max (ks : List (ℕ × ℕ)) (hs : ks.Sorted (fun a b => keyLe b a))
    {m : ℕ × ℕ} (hm : ks.head? = some m) {k : ℕ × ℕ} (hk : k ∈ ks) : keyLe k m := by
  cases ks with
  | nil => simp at hm
  | cons a t =>
    obtain rfl : a = m := by simpa using hm
    rcases List.mem_cons.1 hk with h | h
    · exact h ▸ keyLe_refl a
    · exact (List.sorted_cons.1 hs).1 k h

theorem resolveParentKey_spec (nodes : List HNode) (node : HNode)
    (processed : List (ℕ × ℕ))
    (hsub : ∀ n ∈ nodes, n.level < node.level → n.seq_num < node.seq_num →
      (n.level, n.seq_num) ∈ processed) :
    (resolveParentKey nodes node processed = none ∧
      ∀ n ∈ nodes, ¬(n.level < node.level ∧ n.seq_num < node.seq_num)) ∨
    (∃ k, resolveParentKey nodes node processed = some k ∧
      (∃ n ∈ nodes, n.level < node.level ∧ n.seq_num < node.seq_num ∧
        (n.level, n.seq_num) = k) ∧
      (∀ n ∈ nodes, n.level < node.level → n.seq_num < node.seq_num →
        keyLe (n.level, n.seq_num) k)) := by
  rw [resolveParentKey]
  set cands := (nodes.filter fun n =>
    n.level < node.level ∧ n.seq_num < node.seq_num).map fun n => (n.level, n.seq_num)
    with hcands
  have hmemc : ∀ x ∈ cands, ∃ n ∈ nodes, n.level < node.level ∧ n.seq_num < node.seq_num ∧
      (n.level, n.seq_num) = x := by
    intro x hx
    rcases List.mem_map.1 hx with ⟨n, hn, hnx⟩
    have hn' := List.mem_filter.1 hn
    have hcond := of_decide_eq_true hn'.2
    exact ⟨n, hn'.1, hcond.1, hcond.2, hnx⟩
  have hall : ∀ x ∈ sortedKeysDesc cands, (fun k => decide (k ∈ processed)) x = true := by
    intro x hx
    have hx' : x ∈ cands := (sortedKeysDesc_perm cands).mem_iff.1 hx
    rcases hmemc x hx' with ⟨n, hn, h1, h2, h3⟩
    exact decide_eq_true (h3 ▸ hsub n hn h1 h2)
  rw [find?_all_head _ _ hall]
  rcases hh : (sortedKeysDesc cands).head? with _ | m
  · left
    refine ⟨rfl, ?_⟩
    intro n hn hcontra
    have hx : (n.level, n.seq_num) ∈ cands := by
      apply List.mem_map.2
      refine ⟨n, List.mem_filter.2 ⟨hn, decide_eq_true ⟨hcontra.1, hcontra.2⟩⟩, rfl⟩
    have hmem : (n.level, n.seq_num) ∈ sortedKeysDesc cands :=
      (sortedKeysDesc_perm cands).mem_iff.2 hx
    rw [List.head?_eq_none_iff.1 hh] at hmem
    exact absurd hmem (List.not_mem_nil _)
  · right
    refine ⟨m, rfl, ?_, ?_⟩
    · have hm : m ∈ cands :=
        (sortedKeysDesc_perm cands).mem_iff.1 (List.mem_of_mem_head? hh)
      exact hmemc m hm
    · intro n hn h1 h2
      have hx : (n.level, n.seq_num) ∈ sortedKeysDesc cands := by
        apply (sortedKeysDesc_perm cands).mem_iff.2
        apply List.mem_map.2
        exact ⟨n, List.mem_filter.2 ⟨hn, decide_eq_true ⟨h1, h2⟩⟩, rfl⟩
      exact sorted_head_max _ (sortedKeysDesc_sorted cands) hh hx

theorem extract_seq_index (content : PyStr) (i : ℕ)
    (hi : i < (extract_hierarchy_from_markdown content).length) :
    ((extract_hierarchy_from_markdown content)[i]).seq_num = i := by
  have h := extract_seq_is_range content
  have hi2 : i < ((extract_hierarchy_from_markdown content).map (·.seq_num)).length := by
    rw [List.length_map]
    exact hi
  have h2 : ((extract_hierarchy_from_markdown content).map (·.seq_num))[i] = i := by
    simp only [h]
    exact List.getElem_range _ _
  rwa [List.getElem_map] at h2

/-- Claim C3 (amended): the nodes produced by indexing carry seqNum values
0..n−1 in document order; a node has no parent exactly when no preceding
lower-level node exists; an assigned parent key always belongs to a
preceding lower-level node (so parent.level < node.level and parent.seq <
node.seq), and it is the greatest such key in lexicographic (level, seq)
order — the deepest preceding lower-level header, latest-first — rather
than the nearest preceding node by seqNum. -/
theorem C3_parent_assignment (content : PyStr) :
    ((extract_hierarchy_from_markdown content).map (·.seq_num) =
      List.range (extract_hierarchy_from_markdown content).length) ∧
    (∀ p ∈ documentParentKeys content,
      (p.2 = none →
        ∀ n ∈ extract_hierarchy_from_markdown content,
          ¬(n.level < p.1.level ∧ n.seq_num < p.1.seq_num)) ∧
      (∀ k, p.2 = some k →
        (∃ n ∈ extract_hierarchy_from_markdown content,
          n.level < p.1.level ∧ n.seq_num < p.1.seq_num ∧ (n.level, n.seq_num) = k) ∧
        (∀ n ∈ extract_hierarchy_from_markdown content,
          n.level < p.1.level → n.seq_num < p.1.seq_num → keyLe (n.level, n.seq_num) k) ∧
        k.1 < p.1.level ∧ k.2 < p.1.seq_num)) := by
  refine ⟨extract_seq_is_range content, ?_⟩
  intro p hp
  rw [documentParentKeys] at hp
  rcases List.mem_map.1 hp with ⟨⟨i, node⟩, hin, rfl⟩
  have hin' : (extract_hierarchy_from_markdown content)[i]? = some node :=
    List.mem_enum_iff_getElem?.1 hin
  have hi : i < (extract_hierarchy_from_markdown content).length :=
    (List.getElem?_eq_some.1 hin').1
  have hnode : (extract_hierarchy_from_markdown content)[i] = node :=
    (List.getElem?_eq_some.1 hin').2
  have hseqi : node.seq_num = i := by rw [← hnode]; exact extract_seq_index content i hi
  have hsub : ∀ n ∈ extract_hierarchy_from_markdown content,
      n.level < node.level → n.seq_num < node.seq_num →
      (n.level, n.seq_num) ∈
        (((extract_hierarchy_from_markdown content).take i).map
          fun m => (m.level, m.seq_num)) := by
    intro n hn _ hseq
    rcases List.mem_iff_getElem.1 hn with ⟨j, hj, hnj⟩
    have hjseq : n.seq_num = j := by rw [← hnj]; exact extract_seq_index content j hj
    have hji : j < i := by rw [← hjseq]; omega
    apply List.mem_map.2
    refine ⟨n, ?_, rfl⟩
    apply List.mem_iff_getElem.2
    refine ⟨j, ?_, ?_⟩
    · rw [List.length_take]; omega
    · rw [List.getElem_take]; exact hnj
  rcases resolveParentKey_spec (extract_hierarchy_from_markdown content) node
      (((extract_hierarchy_from_markdown content).take i).map
        fun m => (m.level, m.seq_num)) hsub with ⟨hres, hnone⟩ | ⟨k, hres, hex, hmax⟩
  · constructor
    · intro _ n hn
      exact hnone n hn
    · intro k hk
      simp only [hres] at hk
      exact absurd hk (by simp)
  · constructor
    · intro h0
      simp only [hres] at h0
      exact absurd h0 (by simp)
    · intro k' hk'
      simp only [hres, Option.some.injEq] at hk'
      subst hk'
      rcases hex with ⟨n, hn, h1, h2, h3⟩
      exact ⟨⟨n, hn, h1, h2, h3⟩, hmax, by rw [← h3]; exact h1, by rw [← h3]; exact h2⟩

/-- Witness for C3's amended characterization on "# A\n## B": node B
(level 2, seq 1) gets parent key (1, 0), the lex-maximal preceding
lower-level key. -/
theorem C3_parent_assignment_witness :
    ((⟨"B".data, .str [], 2, 1⟩, some ((1 : ℕ), (0 : ℕ))) ∈
      documentParentKeys "# A\n## B".data) ∧
    ((∃ n ∈ extract_hierarchy_from_markdown "# A\n## B".data,
        n.level < 2 ∧ n.seq_num < 1 ∧ (n.level, n.seq_num) = ((1 : ℕ), (0 : ℕ))) ∧
      (∀ n ∈ extract_hierarchy_from_markdown "# A\n## B".data,
        n.level < 2 → n.seq_num < 1 → keyLe (n.level, n.seq_num) (1, 0)) ∧
      (1 : ℕ) < 2 ∧ (0 : ℕ) < 1) :=
  ⟨by decide,
   ((C3_parent_assignment "# A\n## B".data).2
      (⟨"B".data, .str [], 2, 1⟩, some ((1 : ℕ), (0 : ℕ))) (by decide)).2 (1, 0) rfl⟩


/-! ### C5: search result count, bounds and ordering -/

instance : IsTotal SearchResult (fun a b => b.relevance ≤ a.relevance) :=
  ⟨fun a b => le_total b.relevance a.relevance⟩

instance : IsTrans SearchResult (fun a b => b.relevance ≤ a.relevance) :=
  ⟨fun _ _ _ h1 h2 => le_trans h2 h1⟩

theorem sortByRelevanceDesc_sorted (l : List SearchResult) :
    (sortByRelevanceDesc l).Sorted (fun a b => b.relevance ≤ a.relevance) :=
  List.sorted_insertionSort _ _

theorem sortByRelevanceDesc_perm (l : List SearchResult) :
    (sortByRelevanceDesc l).Perm l :=
  List.perm_insertionSort _ _

theorem pickBestIndex_lt (df : ℚ) (selected : List SearchResult)
    (remaining : List SearchResult) (h : remaining ≠ []) :
    pickBestIndex df selected remaining < remaining.length := by
  rw [pickBestIndex]
  have key : ∀ (l : List (ℕ × SearchResult)) (q : ℚ) (i0 : ℕ),
      i0 < remaining.length →
      (∀ p ∈ l, p.1 < remaining.length) →
      (l.foldl (fun (best : ℚ × ℕ) p =>
        let combined := p.2.relevance * (1 - df) + diversityScore selected p.2 * df
        if best.1 < combined then (combined, p.1) else best) (q, i0)).2 <
        remaining.length := by
    intro l
    induction l with
    | nil => intro q i0 h0 _; exact h0
    | cons p t ih =>
      intro q i0 h0 hall
      rw [List.foldl_cons]
      by_cases hc : q < p.2.relevance * (1 - df) + diversityScore selected p.2 * df
      · simp only [hc, if_true]
        exact ih _ _ (hall p (List.mem_cons_self _ _))
          (fun x hx => hall x (List.mem_cons_of_mem _ hx))
      · simp only [hc, if_false]
        exact ih _ _ h0 (fun x hx => hall x (List.mem_cons_of_mem _ hx))
  apply key
  · cases remaining with
    | nil => exact absurd rfl h
    | cons a t => simp
  · intro p hp
    have := List.mem_enum_iff_getElem?.1 hp
    exact (List.getElem?_eq_some.1 this).1

theorem perm_cons_eraseIdx (l : List SearchResult) (i : ℕ) (c : SearchResult)
    (h : l[i]? = some c) : (c :: l.eraseIdx i).Perm l := by
  induction l generalizing i with
  | nil => simp at h
  | cons a t ih =>
    cases i with
    | zero =>
      simp only [List.getElem?_cons_zero, Option.some.injEq] at h
      subst h
      simp [List.eraseIdx]
    | succ j =>
      simp only [List.getElem?_cons_succ] at h
      rw [List.eraseIdx_cons_succ]
      exact (List.Perm.swap a c _).trans ((ih j h).cons a)

theorem diversityLoop_perm (df : ℚ) :
    ∀ (fuel : ℕ) (remaining selected : List SearchResult),
      remaining.length ≤ fuel →
      (diversityLoop df fuel remaining selected).Perm remaining := by
  intro fuel
  induction fuel with
  | zero =>
    intro remaining selected h
    rw [List.length_eq_zero.1 (Nat.le_zero.1 h)]
    rfl
  | succ n ih =>
    intro remaining selected h
    match remaining with
    | [] => rfl
    | r :: rs =>
      rw [diversityLoop]
      have hlt : pickBestIndex df selected (r :: rs) < (r :: rs).length :=
        pickBestIndex_lt df selected (r :: rs) (by simp)
      rcases hg : (r :: rs)[pickBestIndex df selected (r :: rs)]? with _ | c
      · rw [List.getElem?_eq_none_iff] at hg
        omega
      · simp only []
        have hperm := perm_cons_eraseIdx _ _ _ hg
        have hlen : ((r :: rs).eraseIdx (pickBestIndex df selected (r :: rs))).length ≤ n := by
          rw [List.length_eraseIdx_of_lt hlt]
          simp only [List.length_cons] at h ⊢
          omega
        exact ((ih _ _ hlen).cons c).trans hperm

theorem optimize_result_diversity_perm (results : List SearchResult) (df : ℚ) :
    (optimize_result_diversity results df).Perm results := by
  match results with
  | [] => rfl
  | r0 :: rest =>
    rw [optimize_result_diversity]
    by_cases h : rest.isEmpty
    · simp [optimize_result_diversity, h]
    · simp only [optimize_result_diversity, h, if_false, Bool.false_eq_true]
      exact ((diversityLoop_perm df rest.length rest [r0] le_rfl).cons r0)

theorem calculate_relevance_score_bounds (base : ℚ) (mt : PyStr) (config : SearchConfig)
    (md : Option ScoreMetadata) (hb : 0 ≤ base) (hc : ConfigNonneg config) :
    0 ≤ calculate_relevance_score base mt config md ∧
      calculate_relevance_score base mt config md ≤ 1 := by
  obtain ⟨hkw, hsw, hkb, htb, hdec⟩ := hc
  rcases md with _ | m
  · simp only [calculate_relevance_score]
    refine ⟨le_min ?_ zero_le_one, min_le_right _ _⟩
    split_ifs <;> positivity
  · simp only [calculate_relevance_score]
    refine ⟨le_min ?_ zero_le_one, min_le_right _ _⟩
    split_ifs <;> positivity

theorem addSemanticMatches_mem (config : SearchConfig) (rows : List SemanticRow) :
    ∀ (seen : List ℕ) (ranked : List SearchResult) (r : SearchResult),
      r ∈ (addSemanticMatches config rows seen ranked).2 →
        r ∈ ranked ∨ ∃ row ∈ rows, r = mkSemanticEntry config row := by
  induction rows with
  | nil => intro seen ranked r hr; exact Or.inl hr
  | cons row rows ih =>
    intro seen ranked r hr
    rw [addSemanticMatches, List.foldl_cons] at hr
    by_cases hcond : row.id ∉ seen ∧ config.similarity_threshold ≤ row.similarity
    · rw [if_pos hcond] at hr
      rcases ih _ _ r hr with h | ⟨row2, hrow2, heq⟩
      · rcases List.mem_append.1 h with h2 | h2
        · exact Or.inl h2
        · exact Or.inr ⟨row, List.mem_cons_self _ _, List.mem_singleton.1 h2⟩
      · exact Or.inr ⟨row2, List.mem_cons_of_mem _ hrow2, heq⟩
    · rw [if_neg hcond] at hr
      rcases ih _ _ r hr with h | ⟨row2, hrow2, heq⟩
      · exact Or.inl h
      · exact Or.inr ⟨row2, List.mem_cons_of_mem _ hrow2, heq⟩

theorem addRelatedMatches_mem (top : List SearchResult) (rels : List RelQueryRow) :
    ∀ (seen : List ℕ) (ranked : List SearchResult) (r : SearchResult),
      r ∈ (addRelatedMatches top rels seen ranked).2 →
        r ∈ ranked ∨ ∃ rel ∈ rels, ∃ src ∈ top,
          r.relevance = src.relevance * rel.strength := by
  induction rels with
  | nil => intro seen ranked r hr; exact Or.inl hr
  | cons rel rels ih =>
    intro seen ranked r hr
    rw [addRelatedMatches, List.foldl_cons] at hr
    by_cases hmem : rel.target_id ∈ seen
    · rw [if_pos hmem] at hr
      rcases ih _ _ r hr with h | ⟨rel2, hrel2, hsrc⟩
      · exact Or.inl h
      · exact Or.inr ⟨rel2, List.mem_cons_of_mem _ hrel2, hsrc⟩
    · rw [if_neg hmem] at hr
      rcases hfind : top.find? (fun t => t.id = rel.source_id) with _ | src
      · rw [hfind] at hr
        rcases ih _ _ r hr with h | ⟨rel2, hrel2, hsrc⟩
        · exact Or.inl h
        · exact Or.inr ⟨rel2, List.mem_cons_of_mem _ hrel2, hsrc⟩
      · rw [hfind] at hr
        rcases ih _ _ r hr with h | ⟨rel2, hrel2, hsrc⟩
        · rcases List.mem_append.1 h with h2 | h2
          · exact Or.inl h2
          · refine Or.inr ⟨rel, List.mem_cons_self _ _, src,
              List.mem_of_find?_eq_some hfind, ?_⟩
            rw [List.mem_singleton.1 h2]
        · exact Or.inr ⟨rel2, List.mem_cons_of_mem _ hrel2, hsrc⟩

theorem enrichOne_relevance (env : SearchEnv) (r b : SearchResult)
    (h : enrichOne env r = .ok b) : b.relevance = r.relevance := by
  rw [enrichOne] at h
  rcases hd : env.fetchDocument r.document_id with u | d
  · rw [hd] at h
    cases h
  · rw [hd] at h
    rcases d with _ | d <;> · cases h; rfl

theorem enrich_map_relevance (env : SearchEnv) (rs : List SearchResult) :
    ∀ out, enrichWithDocuments env rs = .ok out →
      out.map (·.relevance) = rs.map (·.relevance) := by
  induction rs with
  | nil =>
    intro out h
    rw [enrichWithDocuments, List.mapM_nil] at h
    cases h
    rfl
  | cons r rs ih =>
    intro out h
    rw [enrichWithDocuments, List.mapM_cons] at h
    rcases h1 : enrichOne env r with u | b
    · rw [h1, exceptBind_error] at h
      cases h
    · rw [h1, exceptBind_ok] at h
      rcases h2 : rs.mapM (enrichOne env) with u | out2
      · rw [h2, exceptBind_error] at h
        cases h
      · rw [h2, exceptBind_ok] at h
        cases h
        simp only [List.map_cons]
        rw [enrichOne_relevance env r b h1, ih out2 h2]

theorem addKeywordMatches_mem2 (config : SearchConfig) (rows : List KeywordRow) :
    ∀ (seen : List ℕ) (ranked : List SearchResult) (r : SearchResult),
      r ∈ (addKeywordMatches config rows seen ranked).2 →
        r ∈ ranked ∨ ∃ row ∈ rows, r = mkKeywordEntry config row := by
  induction rows with
  | nil => intro seen ranked r hr; exact Or.inl hr
  | cons row rows ih =>
    intro seen ranked r hr
    rw [addKeywordMatches, List.foldl_cons] at hr
    by_cases hmem : row.node_id ∈ seen
    · rw [if_pos hmem] at hr
      rcases ih _ _ r hr with h | ⟨row2, hrow2, heq⟩
      · exact Or.inl h
      · exact Or.inr ⟨row2, List.mem_cons_of_mem _ hrow2, heq⟩
    · rw [if_neg hmem] at hr
      rcases ih _ _ r hr with h | ⟨row2, hrow2, heq⟩
      · rcases List.mem_append.1 h with h2 | h2
        · exact Or.inl h2
        · exact Or.inr ⟨row, List.mem_cons_self _ _, List.mem_singleton.1 h2⟩
      · exact Or.inr ⟨row2, List.mem_cons_of_mem _ hrow2, heq⟩

theorem ranked2_bounds (config : SearchConfig) (krows : List KeywordRow)
    (srows : List SemanticRow) (hc : ConfigNonneg config)
    (hk : ∀ row ∈ krows, 0 ≤ row.similarity)
    (hs : ∀ row ∈ srows, 0 ≤ row.similarity) :
    ∀ r ∈ (addSemanticMatches config srows (addKeywordMatches config krows [] []).1
      (addKeywordMatches config krows [] []).2).2,
      0 ≤ r.relevance ∧ r.relevance ≤ 1 := by
  intro r hr
  rcases addSemanticMatches_mem config srows _ _ r hr with h | ⟨row, hrow, heq⟩
  · rcases addKeywordMatches_mem2 config krows _ _ r h with h2 | ⟨row, hrow, heq⟩
    · exact absurd h2 (List.not_mem_nil _)
    · subst heq
      exact calculate_relevance_score_bounds _ _ _ _ (hk row hrow) hc
  · subst heq
    exact calculate_relevance_score_bounds _ _ _ _ (hs row hrow) hc

theorem sorted_transfer (l out : List SearchResult)
    (hmap : out.map (·.relevance) = l.map (·.relevance))
    (hsort : l.Sorted (fun a b => b.relevance ≤ a.relevance)) :
    out.Sorted (fun a b => b.relevance ≤ a.relevance) := by
  have h1 : (l.map (·.relevance)).Pairwise (fun x y => y ≤ x) :=
    List.pairwise_map.2 hsort
  rw [← hmap] at h1
  exact List.pairwise_map.1 h1

theorem combineSearchResults_ok_spec (env : SearchEnv) (config : SearchConfig)
    (krows : List KeywordRow) (srows : List SemanticRow) (out : List SearchResult)
    (h : combineSearchResults env config krows srows = .ok out)
    (hc : ConfigNonneg config)
    (hk : ∀ row ∈ krows, 0 ≤ row.similarity)
    (hs : ∀ row ∈ srows, 0 ≤ row.similarity)
    (hrel : ∀ ids rels, env.fetchRelRows ids = .ok rels →
      ∀ rel ∈ rels, 0 ≤ rel.strength ∧ rel.strength ≤ 1) :
    out.length ≤ config.top_k ∧
    out.Sorted (fun a b => b.relevance ≤ a.relevance) ∧
    (∀ r ∈ out, 0 ≤ r.relevance ∧ r.relevance ≤ 1) := by
  rcases hph1 : addKeywordMatches config krows [] [] with ⟨seen1, ranked1⟩
  rcases hph : addSemanticMatches config srows seen1 ranked1 with ⟨seen2, ranked2⟩
  have hbounds2 : ∀ r ∈ ranked2, 0 ≤ r.relevance ∧ r.relevance ≤ 1 := by
    intro r hr
    apply ranked2_bounds config krows srows hc hk hs r
    rw [hph1]
    show r ∈ (addSemanticMatches config srows seen1 ranked1).2
    rw [hph]
    exact hr
  by_cases hemp : ranked2.isEmpty
  · have h0 : combineSearchResults env config krows srows = .ok [] := by
      apply combine_ranked_empty env config krows srows seen2
      rw [hph1]
      show addSemanticMatches config srows seen1 ranked1 = (seen2, [])
      rw [hph, List.isEmpty_iff.1 hemp]
    rw [h0] at h
    cases h
    exact ⟨Nat.zero_le _, List.sorted_nil,
      by intro r hr; exact absurd hr (List.not_mem_nil _)⟩
  · rw [combineSearchResults, hph1] at h
    simp only [] at h
    rw [hph] at h
    simp only [hemp, if_false, Bool.false_eq_true] at h
    rcases hfr : env.fetchRelRows
        (((sortByRelevanceDesc ranked2).take config.max_depth).map (·.id)) with u | rels
    · rw [hfr, exceptBind_error] at h
      cases h
    · rw [hfr, exceptBind_ok, exceptPure_bind] at h
      set out3 := (addRelatedMatches ((sortByRelevanceDesc ranked2).take config.max_depth)
        rels seen2 (sortByRelevanceDesc ranked2)).2 with hout3
      set final := (sortByRelevanceDesc out3).take config.top_k with hfinal
      have hbounds3 : ∀ r ∈ out3, 0 ≤ r.relevance ∧ r.relevance ≤ 1 := by
        intro r hr
        rcases addRelatedMatches_mem _ rels _ _ r hr with h2 | ⟨rel, hrelm, src, hsrc, hreq⟩
        · exact hbounds2 r ((sortByRelevanceDesc_perm ranked2).mem_iff.1 h2)
        · have hsrcb : 0 ≤ src.relevance ∧ src.relevance ≤ 1 :=
            hbounds2 src ((sortByRelevanceDesc_perm ranked2).mem_iff.1
              (List.take_subset _ _ hsrc))
          have hstr := hrel _ rels hfr rel hrelm
          rw [hreq]
          exact ⟨mul_nonneg hsrcb.1 hstr.1, mul_le_one₀ hsrcb.2 hstr.1 hstr.2⟩
      have hfinb : ∀ r ∈ final, 0 ≤ r.relevance ∧ r.relevance ≤ 1 := by
        intro r hr
        exact hbounds3 r ((sortByRelevanceDesc_perm out3).mem_iff.1
          (List.take_subset _ _ hr))
      have hfins : final.Sorted (fun a b => b.relevance ≤ a.relevance) :=
        (sortByRelevanceDesc_sorted out3).sublist (List.take_sublist _ _)
      have hfinl : final.length ≤ config.top_k := by
        rw [hfinal, List.length_take]
        exact min_le_left _ _
      have hmap := enrich_map_relevance env final out h
      refine ⟨?_, sorted_transfer final out hmap hfins, ?_⟩
      · have hlen : out.length = final.length := by
          have := congrArg List.length hmap
          simpa using this
        omega
      · intro r hr
        have hm : r.relevance ∈ out.map (·.relevance) := List.mem_map_of_mem _ hr
        rw [hmap] at hm
        rcases List.mem_map.1 hm with ⟨x, hx, hxe⟩
        rw [← hxe]
        exact hfinb x hx

theorem resolveConfig_top_k (s : StrategyConfigs) (sc : Option SearchConfig)
    (st : Option SearchStrategy) (query : PyStr) (limit : ℕ) :
    (resolveConfig s sc st query limit).1.top_k = limit := by
  rcases sc with _ | c
  · rcases st with _ | stv
    · rcases h : optimizeSelect s query with ⟨slot, c0⟩
      simp [resolveConfig, h]
    · simp [resolveConfig]
  · simp [resolveConfig]

/-- Claim C5 (amended): for every query and limit (and an environment whose
row similarities are nonnegative and whose relationship strengths lie in
[0,1]), the list returned by `search` has length at most `limit` and every
relevance lies in [0,1]; the merge (`_combine_search_results`) returns its
list sorted in descending relevance, but the final list is only a
permutation of it: when more than one result survives,
`optimize_result_diversity` greedily reorders by a mixed
relevance/diversity score and the output need not be sorted. -/
theorem C5_search_spec (s : StrategyConfigs) (sc : Option SearchConfig)
    (st : Option SearchStrategy) (env : SearchEnv) (query : PyStr) (limit : ℕ)
    (hc : ConfigNonneg (resolveConfig s sc st query limit).1)
    (hk : ∀ kws e rows, env.fetchKeywordRows kws e = .ok rows →
      ∀ row ∈ rows, 0 ≤ row.similarity)
    (hsem : ∀ e th k rows, env.fetchSemanticRows e th k = .ok rows →
      ∀ row ∈ rows, 0 ≤ row.similarity)
    (hrel : ∀ ids rels, env.fetchRelRows ids = .ok rels →
      ∀ rel ∈ rels, 0 ≤ rel.strength ∧ rel.strength ≤ 1) :
    (search s sc st env query limit).1.length ≤ limit ∧
    (∀ r ∈ (search s sc st env query limit).1, 0 ≤ r.relevance ∧ r.relevance ≤ 1) ∧
    (∀ (config : SearchConfig) (krows : List KeywordRow) (srows : List SemanticRow)
      (out : List SearchResult), combineSearchResults env config krows srows = .ok out →
      ConfigNonneg config → (∀ row ∈ krows, 0 ≤ row.similarity) →
      (∀ row ∈ srows, 0 ≤ row.similarity) →
      out.Sorted (fun a b => b.relevance ≤ a.relevance)) ∧
    (∀ (results : List SearchResult) (df : ℚ),
      (optimize_result_diversity results df).Perm results) := by
  have hmain : (search s sc st env query limit).1.length ≤ limit ∧
      (∀ r ∈ (search s sc st env query limit).1, 0 ≤ r.relevance ∧ r.relevance ≤ 1) := by
    rw [search]
    rcases hrc : resolveConfig s sc st query limit with ⟨config, s2⟩
    have htop : config.top_k = limit := by
      have := resolveConfig_top_k s sc st query limit
      rw [hrc] at this
      exact this
    have hcnn : ConfigNonneg config := by
      rw [hrc] at hc
      exact hc
    simp only []
    rcases hat : searchAttempt env config query with u | results
    · simp only []
      exact ⟨Nat.zero_le _, by intro r hr; exact absurd hr (List.not_mem_nil _)⟩
    · simp only []
      rw [searchAttempt] at hat
      rcases henc : env.encode query with u | emb
      · simp only [henc, exceptBind_error] at hat
        cases hat
      · simp only [henc, exceptBind_ok] at hat
        rcases hkwf : env.fetchKeywordRows
            ((((pySplitWs (cleanQuery query)).map pyStrip).filter (fun kw => 2 < kw.length) ++
              (if config.enable_query_expansion then get_query_expansion_terms query config
               else [])).take 5) emb with u | krows
        · simp only [hkwf, exceptBind_error] at hat
          cases hat
        · simp only [hkwf, exceptBind_ok] at hat
          rcases hsemf : env.fetchSemanticRows emb config.similarity_threshold config.top_k
              with u | srows
          · simp only [hsemf, exceptBind_error] at hat
            cases hat
          · simp only [hsemf, exceptBind_ok] at hat
            rcases hcombf : combineSearchResults env config krows srows with u | combined
            · simp only [hcombf, exceptBind_error] at hat
              cases hat
            · simp only [hcombf, exceptBind_ok] at hat
              have hres : results =
                  if 1 < combined.length then optimize_result_diversity combined
                  else combined := by
                cases hat
                rfl
              have hspec := combineSearchResults_ok_spec env config krows srows combined
                hcombf hcnn (hk _ _ krows hkwf) (hsem _ _ _ srows hsemf) hrel
              have hl1 := hspec.1
              by_cases hlen : 1 < combined.length
              · rw [hres, if_pos hlen]
                have hperm := optimize_result_diversity_perm combined 0.3
                constructor
                · rw [hperm.length_eq]
                  omega
                · intro r hr
                  exact hspec.2.2 r (hperm.mem_iff.1 hr)
              · rw [hres, if_neg hlen]
                refine ⟨by omega, hspec.2.2⟩
  refine ⟨hmain.1, hmain.2, ?_, optimize_result_diversity_perm⟩
  intro config krows srows out hok hcn hk2 hs2
  exact (combineSearchResults_ok_spec env config krows srows out hok hcn hk2 hs2 hrel).2.1

/-- Claim C5 (counterexample to sortedness): three keyword rows with
similarities 0.9, 0.8, 0.7 (the third from another document) come back
from `search` in relevance order 0.9, 0.7, 0.8 - the diversity pass
promotes the cross-document result - so the returned list is not sorted
in descending relevance. -/
theorem C5_diversity_counterexample :
    (search initialStrategyConfigs (some c5Config) none c5Env "alpha".data 3).1.map
      (fun r => r.relevance) = [0.9, 0.7, 0.8] ∧
    ¬ (search initialStrategyConfigs (some c5Config) none c5Env "alpha".data 3).1.Sorted
        (fun a b => b.relevance ≤ a.relevance) := by
  have h : (search initialStrategyConfigs (some c5Config) none c5Env "alpha".data 3).1.map
      (fun r => r.relevance) = [0.9, 0.7, 0.8] := by
    norm_num [search, resolveConfig, searchAttempt, c5Env, c5Config, c5Row,
      combineSearchResults, addKeywordMatches, addSemanticMatches, mkKeywordEntry,
      calculate_relevance_score, sortByRelevanceDesc, List.insertionSort,
      List.orderedInsert, addRelatedMatches, enrichWithDocuments, enrichOne,
      List.mapM_cons, List.mapM_nil, List.mapM.loop, exceptBind_ok, exceptPure_bind,
      optimize_result_diversity, diversityLoop, pickBestIndex, diversityScore,
      List.enum, List.enumFrom, List.eraseIdx, min_def]
    simp
  refine ⟨h, fun hs => ?_⟩
  have hp : ([0.9, 0.7, 0.8] : List ℚ).Pairwise (fun a b => b ≤ a) := by
    rw [← h]
    exact (List.pairwise_map).mpr hs
  have h78 : (0.8 : ℚ) ≤ 0.7 := (List.pairwise_cons.mp
    ((List.pairwise_cons.mp hp).2)).1 0.8 (by simp)
  norm_num at h78

/-- Witness for C5's amended theorem at a concrete environment and
limit 2. -/
theorem C5_search_spec_witness :
    (search initialStrategyConfigs (some c5Config) none c5Env "beta".data 2).1.length ≤ 2 := by
  refine (C5_search_spec initialStrategyConfigs (some c5Config) none c5Env
    "beta".data 2 ?_ ?_ ?_ ?_).1
  · refine ⟨?_, ?_, ?_, ?_, ?_⟩ <;> norm_num [resolveConfig, c5Config, ConfigNonneg]
  · intro kws e rows hrow row hmem
    simp only [c5Env] at hrow
    injection hrow with hrow
    subst hrow
    simp only [List.mem_cons, List.not_mem_nil, or_false] at hmem
    rcases hmem with h | h | h <;> rw [h] <;> norm_num [c5Row]
  · intro e th k rows hrow row hmem
    simp only [c5Env] at hrow
    injection hrow with hrow
    subst hrow
    cases hmem
  · intro ids rels hrel rel hmem
    simp only [c5Env] at hrel
    injection hrel with hrel
    subst hrel
    cases hmem

/-! ### C6: segmentation of preamble and headerless content -/

theorem splitOnChar_ne_nil (c : Char) (s : PyStr) : splitOnChar c s ≠ [] := by
  cases s with
  | nil => simp [splitOnChar]
  | cons x xs =>
    rw [splitOnChar]
    by_cases h : x = c
    · simp [h]
    · simp only [h, if_false]
      rcases splitOnChar c xs with _ | ⟨h2, t⟩ <;> simp

theorem intercalate_cons_of_cons (c : Char) (x : Char) (h : PyStr) (t : List PyStr) :
    List.intercalate [c] ((x :: h) :: t) = x :: List.intercalate [c] (h :: t) := by
  cases t with
  | nil => simp [List.intercalate]
  | cons y t' => simp [List.intercalate]

theorem joinLines_splitOnChar (c : Char) (s : PyStr) :
    List.intercalate [c] (splitOnChar c s) = s := by
  induction s with
  | nil => simp [splitOnChar, List.intercalate]
  | cons x xs ih =>
    rw [splitOnChar]
    by_cases h : x = c
    · subst h
      simp only [if_true]
      rcases hs : splitOnChar x xs with _ | ⟨h2, t⟩
      · exact absurd hs (splitOnChar_ne_nil x xs)
      · rw [hs] at ih
        simp [List.intercalate] at ih ⊢
        exact ih
    · simp only [h, if_false]
      rcases hs : splitOnChar c xs with _ | ⟨h2, t⟩
      · exact absurd hs (splitOnChar_ne_nil c xs)
      · rw [hs] at ih
        rw [intercalate_cons_of_cons, ih]

theorem joinNlChars_length (s : PyStr) : (joinNlChars s).length ≤ 2 * s.length := by
  rw [joinNlChars]
  induction s with
  | nil => simp
  | cons x xs ih =>
    cases xs with
    | nil => simp
    | cons y ys =>
      rw [List.intersperse_cons₂]
      simp only [List.length_cons] at ih ⊢
      omega

theorem fallbackStep_id (st : FallbackState) (line : PyStr)
    (hl : headerMatch line = none) (ht : st.current_title = []) :
    fallbackStep st line = st := by
  rw [fallbackStep, hl]
  simp [ht]

theorem foldl_fallbackStep_id (lines : List PyStr) (st : FallbackState)
    (hl : ∀ l ∈ lines, headerMatch l = none) (ht : st.current_title = []) :
    lines.foldl fallbackStep st = st := by
  induction lines generalizing st with
  | nil => rfl
  | cons l ls ih =>
    rw [List.foldl_cons, fallbackStep_id st l (hl l (List.mem_cons_self _ _)) ht]
    exact ih st (fun x hx => hl x (List.mem_cons_of_mem _ hx)) ht

theorem fallbackNodes_headerless (lines : List PyStr)
    (hl : ∀ l ∈ lines, headerMatch l = none) : fallbackNodes lines = [] := by
  rw [fallbackNodes, foldl_fallbackStep_id lines _ hl rfl]
  simp

theorem fallbackNodes_drop_preamble (pre rest : List PyStr)
    (hl : ∀ l ∈ pre, headerMatch l = none) :
    fallbackNodes (pre ++ rest) = fallbackNodes rest := by
  rw [fallbackNodes, fallbackNodes, List.foldl_append,
    foldl_fallbackStep_id pre _ hl rfl]

theorem headerSegStep_accum (st : HeaderSegState) (line : PyStr)
    (hl : headerMatch line = none) :
    headerSegStep st line = { st with content := st.content ++ [line] } := by
  rw [headerSegStep, hl]

theorem foldl_headerSegStep_accum (lines : List PyStr) (st : HeaderSegState)
    (hl : ∀ l ∈ lines, headerMatch l = none) :
    lines.foldl headerSegStep st = { st with content := st.content ++ lines } := by
  induction lines generalizing st with
  | nil => simp
  | cons l ls ih =>
    rw [List.foldl_cons, headerSegStep_accum st l (hl l (List.mem_cons_self _ _)),
      ih _ (fun x hx => hl x (List.mem_cons_of_mem _ hx))]
    simp

theorem headerSegStep_mono (lines : List PyStr) (st : HeaderSegState) :
    ∃ tail, (lines.foldl headerSegStep st).segments = st.segments ++ tail := by
  induction lines generalizing st with
  | nil => exact ⟨[], by simp⟩
  | cons l ls ih =>
    rw [List.foldl_cons, headerSegStep]
    rcases headerMatch l with _ | ⟨lv, g2⟩
    · rcases ih { st with content := st.content ++ [l] } with ⟨tail, htail⟩
      exact ⟨tail, htail⟩
    · simp only []
      by_cases hc : st.title ≠ [] ∨ st.content ≠ []
      · rw [if_pos hc]
        rcases ih ⟨st.segments ++ [finalizeSegment st.title st.content st.level],
          pyStrip g2, [], lv⟩ with ⟨tail, htail⟩
        exact ⟨[finalizeSegment st.title st.content st.level] ++ tail, by
          rw [htail]; simp⟩
      · rw [if_neg hc]
        rcases ih ⟨st.segments, pyStrip g2, [], lv⟩ with ⟨tail, htail⟩
        exact ⟨tail, htail⟩

theorem headerBasedSegmentation_headerless (content : PyStr)
    (hl : ∀ l ∈ splitOnChar '\n' content, headerMatch l = none) :
    headerBasedSegmentation content =
      [⟨[], .str (pyStrip content), 0, false⟩] := by
  rw [headerBasedSegmentation, foldl_headerSegStep_accum _ _ hl]
  simp only [List.nil_append]
  have hne : splitOnChar '\n' content ≠ [] := splitOnChar_ne_nil '\n' content
  rw [if_pos (Or.inr hne)]
  simp [finalizeSegment, joinLines, joinLines_splitOnChar]

theorem extractHierarchyAdvanced_headerless (content : PyStr)
    (hl : ∀ l ∈ splitOnChar '\n' content, headerMatch l = none)
    (hlen : (pyStrip content).length ≤ 1000) :
    extractHierarchyAdvanced content = [⟨[], .str (pyStrip content), 0, 0⟩] := by
  have hseg := headerBasedSegmentation_headerless content hl
  have hjl : (joinNlChars (pyStrip content)).length ≤ 2000 := by
    have := joinNlChars_length (pyStrip content)
    omega
  have hms : ({} : SegmentationConfig).max_segment_length = 2000 := rfl
  have h1 : ¬ (({} : SegmentationConfig).max_segment_length <
      (joinNlChars (pyStrip content)).length) := by
    rw [hms]; omega
  have h2 : (joinNlChars (pyStrip content)).length ≤
      ({} : SegmentationConfig).max_segment_length := by
    rw [hms]; exact hjl
  rw [extractHierarchyAdvanced, hybridSegmentation, hseg]
  simp only [List.flatMap_cons, List.flatMap_nil, List.append_nil, joinNlVal]
  rw [if_neg h1]
  rw [applyTokenLimitsWithOverlap]
  simp only [List.flatMap_cons, List.flatMap_nil, List.append_nil, joinNlVal]
  rw [if_pos h2]
  rfl

theorem segments_cons_exists (st : HeaderSegState) (s0 : Segment) (t0 : List Segment)
    (h : st.segments = s0 :: t0) :
    ∃ tail, (if st.title ≠ [] ∨ st.content ≠ [] then
      st.segments ++ [finalizeSegment st.title st.content st.level]
    else st.segments) = s0 :: tail := by
  by_cases hc : st.title ≠ [] ∨ st.content ≠ []
  · exact ⟨t0 ++ [finalizeSegment st.title st.content st.level],
      by rw [if_pos hc, h]; simp⟩
  · exact ⟨t0, by rw [if_neg hc, h]⟩

theorem headerBasedSegmentation_preamble (content : PyStr) (pre : List PyStr)
    (hline : PyStr) (rest : List PyStr) (lv : ℕ) (g2 : PyStr)
    (hsplit : splitOnChar '\n' content = pre ++ hline :: rest)
    (hl : ∀ l ∈ pre, headerMatch l = none) (hne : pre ≠ [])
    (hh : headerMatch hline = some (lv, g2)) :
    ∃ tail, headerBasedSegmentation content =
      ⟨[], .str (pyStrip (joinLines pre)), 0, false⟩ :: tail := by
  rcases headerSegStep_mono rest ⟨[finalizeSegment [] pre 0], pyStrip g2, [], lv⟩
    with ⟨tail, htail⟩
  rw [headerBasedSegmentation, hsplit, List.foldl_append,
    foldl_headerSegStep_accum pre _ hl, List.foldl_cons]
  dsimp only [List.nil_append]
  rw [headerSegStep, hh]
  dsimp only []
  rw [if_pos (Or.inr hne)]
  dsimp only [List.nil_append]
  apply segments_cons_exists
  simpa [finalizeSegment] using htail

/-- Claim C6 (amended): the fallback parser (`use_advanced_segmentation=False`)
behaves as claimed - headerless content yields exactly one "Document
Content" node at level 1 holding the entire input, and lines before the
first header are discarded.  The default advanced path does neither: a
headerless document (of stripped length at most 1000) yields exactly one
node with empty title at level 0 holding the stripped content, and the
text preceding the first header is emitted as a leading segment with
empty title at level 0 rather than discarded. -/
theorem C6_segmentation_amended :
    (∀ content : PyStr, (∀ l ∈ splitOnChar '\n' content, headerMatch l = none) →
      extract_hierarchy_from_markdown content false =
        [⟨"Document Content".data, .str content, 1, 0⟩]) ∧
    (∀ pre rest : List PyStr, (∀ l ∈ pre, headerMatch l = none) →
      fallbackNodes (pre ++ rest) = fallbackNodes rest) ∧
    (∀ content : PyStr, (∀ l ∈ splitOnChar '\n' content, headerMatch l = none) →
      (pyStrip content).length ≤ 1000 →
      extract_hierarchy_from_markdown content =
        [⟨[], .str (pyStrip content), 0, 0⟩]) ∧
    (∀ (content : PyStr) (pre : List PyStr) (hline : PyStr) (rest : List PyStr)
        (lv : ℕ) (g2 : PyStr),
      splitOnChar '\n' content = pre ++ hline :: rest →
      (∀ l ∈ pre, headerMatch l = none) → pre ≠ [] →
      headerMatch hline = some (lv, g2) →
      ∃ tail, headerBasedSegmentation content =
        ⟨[], .str (pyStrip (joinLines pre)), 0, false⟩ :: tail) := by
  refine ⟨?_, fallbackNodes_drop_preamble, ?_, headerBasedSegmentation_preamble⟩
  · intro content hl
    rw [extract_hierarchy_from_markdown]
    simp only [Bool.false_eq_true, if_false]
    rw [extractHierarchyFallback, fallbackNodes_headerless _ hl]
    rfl
  · intro content hl hlen
    rw [extract_hierarchy_from_markdown]
    simp only [if_true]
    exact extractHierarchyAdvanced_headerless content hl hlen

/-- Claim C6 (counterexample): on the default path, "intro\n# A\nbody"
produces a node for the preamble line "intro" (empty title, level 0)
rather than discarding it, and headerless "hello" produces a node with
empty title at level 0, not a "Document Content" node at level 1. -/
theorem C6_default_counterexample :
    extract_hierarchy_from_markdown "intro\n# A\nbody".data =
      [⟨[], .str "intro".data, 0, 0⟩, ⟨"A".data, .str "body".data, 1, 1⟩] ∧
    extract_hierarchy_from_markdown "hello".data =
      [⟨[], .str "hello".data, 0, 0⟩] ∧
    ([] : PyStr) ≠ "Document Content".data ∧ (0 : ℕ) ≠ 1 := by
  refine ⟨by decide, by decide, by decide, by decide⟩

/-- Witness for C6's amended theorem: the advanced path on "hi" and the
fallback path on "x". -/
theorem C6_segmentation_amended_witness :
    extract_hierarchy_from_markdown "hi".data = [⟨[], .str "hi".data, 0, 0⟩] ∧
    extract_hierarchy_from_markdown "x".data false =
      [⟨"Document Content".data, .str "x".data, 1, 0⟩] :=
  ⟨C6_segmentation_amended.2.2.1 "hi".data (by decide) (by decide),
   C6_segmentation_amended.1 "x".data (by decide)⟩

end DokuCORE
